import Mathlib

/-!
# Options-Calculator: Black-Scholes pricing and the implied-volatility solver

A shallow embedding of `Options-Calculator.cpp`.

* A C++ `double` is modelled by an element of a linearly ordered field `α`
  (exact arithmetic, no rounding, no NaN, no infinities).  The functions of
  `<cmath>` that the program calls (`sqrt`, `log`, `exp`, `erfc`) are not code
  of the program; they are passed in as a record `CMath α`.  `fabs` is the
  absolute value of the ordered field.
* `throw std::invalid_argument(msg)` is the `Except.error` result
  `Exception.invalid_argument msg`.
* The `while` loop of `calcImpliedVolatility` is a recursive function on the
  loop state `(currDiff, iterCount, closestVol)`; it terminates because
  `MAX_ITERATIONS - iterCount` decreases.

All program definitions are computable.  Lemmas that only need a few properties
of the `<cmath>` functions are stated for any `CMath α` with `CMathLaws`.  The
theorems about real arithmetic instantiate `α := ℝ` and `CMath ℝ` with the real
square root, natural logarithm, exponential and the complementary error
function `erfc x = 2/√π * ∫_x^∞ exp (-t²) dt` (`realCMath`).  Statements that
hold for every `CMath` are evaluated at concrete inputs on the rationals
(`ratCMath`).
-/

namespace OptionsCalculator

/-- The functions of `<cmath>` used by the program. -/
structure CMath (α : Type) where
  sqrt : α → α
  log : α → α
  exp : α → α
  erfc : α → α

/-- The C++ exceptions the program throws. -/
inductive Exception where
  | invalid_argument (what : String)

section Program

variable {α : Type} [LinearOrderedField α]

/-- Source: `double HALF_ROOT = sqrt(0.5);` -/
def HALF_ROOT (m : CMath α) : α := m.sqrt 0.5

/-- Source: `double APPROX_TOLERANCE = 0.0001;` -/
def APPROX_TOLERANCE : α := 0.0001

/-- Source: `int MAX_ITERATIONS = 1000;` -/
def MAX_ITERATIONS : Nat := 1000

/-- Source: `calcD1`, the d1 value in the Black-Scholes formula. -/
def calcD1 (m : CMath α) (vol stockPri strikePri rf timeToExp : α) : Except Exception α :=
  if vol ≤ 0 ∨ timeToExp ≤ 0 ∨ strikePri ≤ 0 then
    .error (.invalid_argument "Received invalid volume, expiry time, or strike price")
  else
    .ok ((1 / (vol * m.sqrt timeToExp)) *
      (m.log (stockPri / strikePri) + (rf + ((vol * vol) / 2)) * timeToExp))

/-- Source: `calcD2`, the d2 value in the Black-Scholes formula. -/
def calcD2 (m : CMath α) (d1 vol timeToExp : α) : Except Exception α :=
  if vol ≤ 0 ∨ timeToExp ≤ 0 then
    .error (.invalid_argument "Received invalid volume or expiry time")
  else
    .ok (d1 - (vol * m.sqrt timeToExp))

/-- Source: `cdfNorm`, the CDF of the normal distribution. -/
def cdfNorm (m : CMath α) (val : α) : α :=
  0.5 * m.erfc (-val * HALF_ROOT m)

/-- Source: `blackScholesCall`. The parameter `vol` is unused, as in the source. -/
def blackScholesCall (m : CMath α) (_vol stockPri strikePri rf timeToExp d1 d2 : α) : α :=
  cdfNorm m d1 * stockPri - cdfNorm m d2 * strikePri * m.exp (-rf * timeToExp)

/-- Source: `blackScholesPut`. The parameter `vol` is unused, as in the source. -/
def blackScholesPut (m : CMath α) (_vol stockPri strikePri rf timeToExp d1 d2 : α) : α :=
  -cdfNorm m (-d1) * stockPri + cdfNorm m (-d2) * strikePri * m.exp (-rf * timeToExp)

/-- Source: `calcVega`. -/
def calcVega (m : CMath α) (stockPri d1 timeToExp : α) : α :=
  stockPri * cdfNorm m d1 * m.sqrt timeToExp

/-- The local variables of `calcImpliedVolatility` that the loop updates. -/
structure LoopState (α : Type) where
  currDiff : α
  iterCount : Nat
  closestVol : α

/-- What one execution of the loop body does: it goes on with a new state, or
leaves the function by `return`. A `throw` is the `Except.error` around it. -/
inductive BodyResult (α : Type) where
  | next (s : LoopState α)
  | ret (v : α)

/-- Source: `auto blackScholesFunction = blackScholesPut; if (isCallOption) ...`. -/
def blackScholesFunction (m : CMath α) (isCallOption : Bool) :
    α → α → α → α → α → α → α → α :=
  if isCallOption then blackScholesCall m else blackScholesPut m

/-- Source: the loop condition `currDiff > APPROX_TOLERANCE && iterCount < MAX_ITERATIONS`. -/
def loopCond (s : LoopState α) : Prop :=
  s.currDiff > APPROX_TOLERANCE ∧ s.iterCount < MAX_ITERATIONS

instance (s : LoopState α) : Decidable (loopCond s) := by
  unfold loopCond; infer_instance

/-- Source: the body of the `while` loop of `calcImpliedVolatility`. -/
def loopBody (m : CMath α) (isCallOption : Bool) (callPrice stockPri strikePri rf timeToExp : α)
    (s : LoopState α) : Except Exception (BodyResult α) :=
  let iterCount := s.iterCount + 1
  match calcD1 m s.closestVol stockPri strikePri rf timeToExp with
  | .error e => .error e
  | .ok d1 =>
    match calcD2 m d1 s.closestVol timeToExp with
    | .error e => .error e
    | .ok d2 =>
      let bschFuncVal :=
        blackScholesFunction m isCallOption s.closestVol stockPri strikePri rf timeToExp d1 d2
          - callPrice
      let derivVal := calcVega m stockPri d1 timeToExp
      if derivVal = 0 then
        .ok (.ret (-1))
      else
        let newVol := s.closestVol - (bschFuncVal / derivVal)
        let currDiff := |(newVol - s.closestVol) / s.closestVol|
        .ok (.next ⟨currDiff, iterCount, newVol⟩)

/-- Source: the `while` loop of `calcImpliedVolatility` followed by `return closestVol;`. -/
def whileLoop (m : CMath α) (isCallOption : Bool) (callPrice stockPri strikePri rf timeToExp : α)
    (s : LoopState α) : Except Exception α :=
  if hc : loopCond s then
    match hb : loopBody m isCallOption callPrice stockPri strikePri rf timeToExp s with
    | .error e => .error e
    | .ok (.ret v) => .ok v
    | .ok (.next s') =>
      whileLoop m isCallOption callPrice stockPri strikePri rf timeToExp s'
  else
    .ok s.closestVol
termination_by MAX_ITERATIONS - s.iterCount
decreasing_by
  have h2 : s.iterCount < MAX_ITERATIONS := hc.2
  have h1 : s'.iterCount = s.iterCount + 1 := by
    unfold loopBody at hb
    split at hb
    · cases hb
    · split at hb
      · cases hb
      · simp only at hb
        split at hb
        · cases hb
        · cases hb; rfl
  omega

/-- Source: the initial values `currDiff = 1`, `iterCount = 0`, `closestVol = 1`. -/
def initState : LoopState α := ⟨1, 0, 1⟩

/-- Source: `calcImpliedVolatility`. -/
def calcImpliedVolatility (m : CMath α) (isCallOption : Bool)
    (callPrice stockPri strikePri rf timeToExp : α) : Except Exception α :=
  whileLoop m isCallOption callPrice stockPri strikePri rf timeToExp initState

/-- The loop state at the loop head after `n` complete executions of the body,
if the loop gets that far: `none` when the loop has already been left (by the
loop condition, by `return -1` or by an exception). -/
def stateAfter (m : CMath α) (isCallOption : Bool) (callPrice stockPri strikePri rf timeToExp : α) :
    Nat → Option (LoopState α)
  | 0 => some initState
  | n + 1 =>
    match stateAfter m isCallOption callPrice stockPri strikePri rf timeToExp n with
    | none => none
    | some s =>
      if loopCond s then
        match loopBody m isCallOption callPrice stockPri strikePri rf timeToExp s with
        | .ok (.next s') => some s'
        | _ => none
      else none

/-- The body execution at loop state `s` is the last one and the call ends with result `r`:
the loop condition holds at `s`, and the body either throws (and `r` is that exception),
or returns `-1` (and `r` is `-1`), or yields a state at which the loop condition fails
(and `r` is that state's `closestVol`). -/
def leavesAt (m : CMath α) (isCallOption : Bool) (callPrice stockPri strikePri rf timeToExp : α)
    (s : LoopState α) (r : Except Exception α) : Prop :=
  loopCond s
    ∧ ((∃ what,
          loopBody m isCallOption callPrice stockPri strikePri rf timeToExp s
              = .error (.invalid_argument what)
            ∧ r = .error (.invalid_argument what))
      ∨ (loopBody m isCallOption callPrice stockPri strikePri rf timeToExp s = .ok (.ret (-1))
            ∧ r = .ok (-1))
      ∨ (∃ s', loopBody m isCallOption callPrice stockPri strikePri rf timeToExp s
              = .ok (.next s')
            ∧ ¬ loopCond s' ∧ r = .ok s'.closestVol))


/-- The value `calcD1` returns when it does not throw (its `return` expression). -/
def d1Value (m : CMath α) (vol stockPri strikePri rf timeToExp : α) : α :=
  (1 / (vol * m.sqrt timeToExp)) *
    (m.log (stockPri / strikePri) + (rf + ((vol * vol) / 2)) * timeToExp)

/-- The value `calcD2` returns when it does not throw (its `return` expression). -/
def d2Value (m : CMath α) (d1 vol timeToExp : α) : α :=
  d1 - (vol * m.sqrt timeToExp)

/-- The reference sequence of the specification, written from its words and not from the
loop: `s 0 = 1` and `s (j+1) = s j - (Price (s j) - marketPrice) / calcVega S (d1 (s j)) T`,
with `d1 (s) = calcD1 s S K r T`, `d2 (s) = calcD2 (d1 s) s T` and `Price` the call price
when `isCallOption` is true and the put price otherwise. -/
def referenceSeq (m : CMath α) (isCallOption : Bool)
    (marketPrice stockPri strikePri rf timeToExp : α) : Nat → α
  | 0 => 1
  | j + 1 =>
    let s := referenceSeq m isCallOption marketPrice stockPri strikePri rf timeToExp j
    let d1 := d1Value m s stockPri strikePri rf timeToExp
    let d2 := d2Value m d1 s timeToExp
    let price :=
      if isCallOption then blackScholesCall m s stockPri strikePri rf timeToExp d1 d2
      else blackScholesPut m s stockPri strikePri rf timeToExp d1 d2
    s - (price - marketPrice) / calcVega m stockPri d1 timeToExp

/-- The stopping test of the specification at index `k ≥ 1` of the reference sequence:
`|s k - s (k-1)| / s (k-1) ≤ 1e-4`. -/
def referenceStop (m : CMath α) (isCallOption : Bool)
    (marketPrice stockPri strikePri rf timeToExp : α) (k : Nat) : Prop :=
  |referenceSeq m isCallOption marketPrice stockPri strikePri rf timeToExp k
      - referenceSeq m isCallOption marketPrice stockPri strikePri rf timeToExp (k - 1)|
    / referenceSeq m isCallOption marketPrice stockPri strikePri rf timeToExp (k - 1)
    ≤ 1e-4

/-- The properties of the `<cmath>` functions that the proofs about exact arithmetic rest on;
the real `<cmath>` has them (`realCMath_facts`). -/
structure CMathLaws (m : CMath α) : Prop where
  sqrt_pos : ∀ t : α, 0 < t → 0 < m.sqrt t
  sqrt_mul_self : ∀ x : α, 0 ≤ x → m.sqrt (x * x) = x
  log_one : m.log 1 = 0
  exp_zero : m.exp 0 = 1
  erfc_zero : m.erfc 0 = 1
  erfc_neg : ∀ x : α, m.erfc (-x) = 2 - m.erfc x
  erfc_pos : ∀ x : α, 0 < m.erfc x
  erfc_strictAnti : ∀ x y : α, x < y → m.erfc y < m.erfc x

/-- A computable `<cmath>` on the rationals. It does not compute the real functions; it
serves to evaluate, at concrete inputs, statements that hold for every `CMath`. -/
def ratCMath : CMath ℚ where
  sqrt := fun x => x
  log := fun _ => 0
  exp := fun _ => 1
  erfc := fun _ => 1

end Program

/-! ## The real-number interpretation of `<cmath>` -/

section RealMath

open MeasureTheory Set

/-- The Gaussian tail integral `∫_x^∞ exp (-t²) dt`. -/
noncomputable def gaussTail (x : ℝ) : ℝ := ∫ t in Ioi x, Real.exp (-t ^ 2)

/-- The complementary error function `erfc x = 2/√π * ∫_x^∞ exp (-t²) dt`. -/
noncomputable def erfc (x : ℝ) : ℝ := 2 / Real.sqrt Real.pi * gaussTail x

/-- The functions of `<cmath>` on the real numbers. -/
noncomputable def realCMath : CMath ℝ where
  sqrt := Real.sqrt
  log := Real.log
  exp := Real.exp
  erfc := erfc

end RealMath

/-! ## Facts about the real `erfc` -/

section ErfcLemmas

open MeasureTheory Set

/-- The real `<cmath>` has the properties collected in `CMathLaws`, and differences of the
Gaussian tail integral are interval integrals. Both rest on the Gaussian integral
`∫ exp (-t²) dt = √π`. -/
theorem realCMath_facts :
    CMathLaws realCMath
      ∧ (∀ x y : ℝ, gaussTail x - gaussTail y = ∫ t in x..y, Real.exp (-t ^ 2)) := by
  have hint : Integrable (fun t : ℝ => Real.exp (-t ^ 2)) := by
    simpa using integrable_exp_neg_mul_sq (b := 1) one_pos
  have htot : ∫ t : ℝ, Real.exp (-t ^ 2) = Real.sqrt Real.pi := by
    simpa using integral_gaussian 1
  have hzero : gaussTail 0 = Real.sqrt Real.pi / 2 := by
    show ∫ t in Ioi (0 : ℝ), Real.exp (-t ^ 2) = Real.sqrt Real.pi / 2
    simpa using integral_gaussian_Ioi 1
  have hIic : ∀ x : ℝ, ∫ t in Iic x, Real.exp (-t ^ 2) = gaussTail (-x) := by
    intro x
    show ∫ t in Iic x, Real.exp (-t ^ 2) = ∫ t in Ioi (-x), Real.exp (-t ^ 2)
    have h := integral_comp_neg_Iic x (fun t : ℝ => Real.exp (-t ^ 2))
    simpa using h
  have hadd : ∀ x : ℝ, gaussTail (-x) + gaussTail x = Real.sqrt Real.pi := by
    intro x
    rw [← hIic, ← htot]
    exact intervalIntegral.integral_Iic_add_Ioi hint.integrableOn hint.integrableOn
  have hsub : ∀ x y : ℝ, gaussTail x - gaussTail y = ∫ t in x..y, Real.exp (-t ^ 2) := by
    intro x y
    have h := intervalIntegral.integral_Iic_sub_Iic (μ := volume) (a := x) (b := y)
      (f := fun t : ℝ => Real.exp (-t ^ 2)) hint.integrableOn hint.integrableOn
    rw [hIic, hIic] at h
    have hx := hadd x
    have hy := hadd y
    linarith
  have hanti : ∀ x y : ℝ, x < y → gaussTail y < gaussTail x := by
    intro x y h
    have hpos : 0 < ∫ t in x..y, Real.exp (-t ^ 2) :=
      intervalIntegral.intervalIntegral_pos_of_pos
        (hint.intervalIntegrable) (fun t => Real.exp_pos _) h
    rw [← hsub] at hpos
    linarith
  have hnonneg : ∀ x : ℝ, 0 ≤ gaussTail x := fun x =>
    setIntegral_nonneg measurableSet_Ioi (fun _ _ => (Real.exp_pos _).le)
  have hpos : ∀ x : ℝ, 0 < gaussTail x := fun x =>
    lt_of_le_of_lt (hnonneg (x + 1)) (hanti x (x + 1) (lt_add_one x))
  have hpi : 0 < Real.sqrt Real.pi := Real.sqrt_pos.mpr Real.pi_pos
  refine ⟨⟨fun t ht => Real.sqrt_pos.mpr ht, fun x hx => Real.sqrt_mul_self hx, Real.log_one,
    Real.exp_zero, ?_, ?_, ?_, ?_⟩, hsub⟩
  · show 2 / Real.sqrt Real.pi * gaussTail 0 = 1
    rw [hzero]; field_simp
  · intro x
    show 2 / Real.sqrt Real.pi * gaussTail (-x) = 2 - 2 / Real.sqrt Real.pi * gaussTail x
    have h2 : gaussTail (-x) = Real.sqrt Real.pi - gaussTail x := by
      have := hadd x
      linarith
    rw [h2]; field_simp; ring
  · intro x
    exact mul_pos (div_pos two_pos hpi) (hpos x)
  · intro x y h
    exact mul_lt_mul_of_pos_left (hanti x y h) (div_pos two_pos hpi)

end ErfcLemmas

/-! ## Parameter derivation: `calcD1`, `calcD2` -/

section Derivation

variable {α : Type} [LinearOrderedField α]

theorem calcD1_ok (m : CMath α) (vol stockPri strikePri rf timeToExp : α)
    (hv : 0 < vol) (ht : 0 < timeToExp) (hk : 0 < strikePri) :
    calcD1 m vol stockPri strikePri rf timeToExp =
      .ok ((1 / (vol * m.sqrt timeToExp)) *
        (m.log (stockPri / strikePri) + (rf + ((vol * vol) / 2)) * timeToExp)) := by
  unfold calcD1
  rw [if_neg]
  simp only [not_or, not_le]
  exact ⟨hv, ht, hk⟩

theorem calcD1_error (m : CMath α) (vol stockPri strikePri rf timeToExp : α)
    (h : vol ≤ 0 ∨ timeToExp ≤ 0 ∨ strikePri ≤ 0) :
    calcD1 m vol stockPri strikePri rf timeToExp =
      .error (.invalid_argument "Received invalid volume, expiry time, or strike price") := by
  unfold calcD1
  rw [if_pos h]

theorem calcD2_ok (m : CMath α) (d1 vol timeToExp : α) (hv : 0 < vol) (ht : 0 < timeToExp) :
    calcD2 m d1 vol timeToExp = .ok (d1 - (vol * m.sqrt timeToExp)) := by
  unfold calcD2
  rw [if_neg]
  simp only [not_or, not_le]
  exact ⟨hv, ht⟩

theorem calcD2_error (m : CMath α) (d1 vol timeToExp : α) (h : vol ≤ 0 ∨ timeToExp ≤ 0) :
    calcD2 m d1 vol timeToExp =
      .error (.invalid_argument "Received invalid volume or expiry time") := by
  unfold calcD2
  rw [if_pos h]

/-- If `calcD1` returns, its three validated arguments are positive. -/
theorem calcD1_ok_pos (m : CMath α) (vol stockPri strikePri rf timeToExp d1 : α)
    (h : calcD1 m vol stockPri strikePri rf timeToExp = .ok d1) :
    0 < vol ∧ 0 < timeToExp ∧ 0 < strikePri := by
  by_contra hc
  have hbad : vol ≤ 0 ∨ timeToExp ≤ 0 ∨ strikePri ≤ 0 := by
    by_contra hn
    simp only [not_or, not_le] at hn
    exact hc hn
  rw [calcD1_error m vol stockPri strikePri rf timeToExp hbad] at h
  cases h

/-- C1: `calcD1` fails with `invalid_argument` exactly when `vol ≤ 0`, `timeToExp ≤ 0` or
`strikePri ≤ 0`; so it fails at 0 and at every negative value of each of the three, and
whether it fails does not depend on `stockPri` or `rf`. -/
theorem calcD1_fails_iff (m : CMath α) (vol stockPri strikePri rf timeToExp : α) :
    ((∃ what, calcD1 m vol stockPri strikePri rf timeToExp = .error (.invalid_argument what))
        ↔ (vol ≤ 0 ∨ timeToExp ≤ 0 ∨ strikePri ≤ 0))
      ∧ (∀ stockPri2 rf2 : α,
          (∃ what, calcD1 m vol stockPri2 strikePri rf2 timeToExp
              = .error (.invalid_argument what))
            ↔ (∃ what, calcD1 m vol stockPri strikePri rf timeToExp
              = .error (.invalid_argument what))) := by
  have key : ∀ s r : α,
      ((∃ what, calcD1 m vol s strikePri r timeToExp = .error (.invalid_argument what))
        ↔ (vol ≤ 0 ∨ timeToExp ≤ 0 ∨ strikePri ≤ 0)) := by
    intro s r
    constructor
    · rintro ⟨what, hw⟩
      by_contra hn
      simp only [not_or, not_le] at hn
      rw [calcD1_ok m vol s strikePri r timeToExp hn.1 hn.2.1 hn.2.2] at hw
      cases hw
    · intro h
      exact ⟨_, calcD1_error m vol s strikePri r timeToExp h⟩
  exact ⟨key stockPri rf, fun s r => (key s r).trans (key stockPri rf).symm⟩

/-- C3: `calcD2` fails with `invalid_argument` exactly when `vol ≤ 0` or `timeToExp ≤ 0`;
whether it fails does not depend on `d1`. -/
theorem calcD2_fails_iff (m : CMath α) (d1 vol timeToExp : α) :
    ((∃ what, calcD2 m d1 vol timeToExp = .error (.invalid_argument what))
        ↔ (vol ≤ 0 ∨ timeToExp ≤ 0))
      ∧ (∀ d : α,
          (∃ what, calcD2 m d vol timeToExp = .error (.invalid_argument what))
            ↔ (∃ what, calcD2 m d1 vol timeToExp = .error (.invalid_argument what))) := by
  have key : ∀ d : α,
      ((∃ what, calcD2 m d vol timeToExp = .error (.invalid_argument what))
        ↔ (vol ≤ 0 ∨ timeToExp ≤ 0)) := by
    intro d
    constructor
    · rintro ⟨what, hw⟩
      by_contra hn
      simp only [not_or, not_le] at hn
      rw [calcD2_ok m d vol timeToExp hn.1 hn.2] at hw
      cases hw
    · intro h
      exact ⟨_, calcD2_error m d vol timeToExp h⟩
  exact ⟨key d1, fun d => (key d).trans (key d1).symm⟩

/-- C4: for `vol > 0`, `timeToExp > 0`, `strikePri > 0` both `calcD1` and `calcD2` on its
result succeed, and the value of `calcD2` is the value of `calcD1` minus `vol * sqrt timeToExp`. -/
theorem calcD2_calcD1 (m : CMath α) (vol stockPri strikePri rf timeToExp : α)
    (hv : 0 < vol) (ht : 0 < timeToExp) (hk : 0 < strikePri) :
    ∃ d1 d2 : α, calcD1 m vol stockPri strikePri rf timeToExp = .ok d1
      ∧ calcD2 m d1 vol timeToExp = .ok d2
      ∧ d2 = d1 - vol * m.sqrt timeToExp :=
  ⟨_, _, calcD1_ok m vol stockPri strikePri rf timeToExp hv ht hk,
    calcD2_ok m _ vol timeToExp hv ht, rfl⟩

theorem calcD2_calcD1_witness :
    ∃ d1 d2 : ℚ, calcD1 ratCMath (1 / 5) 100 100 (1 / 20) 1 = .ok d1
      ∧ calcD2 ratCMath d1 (1 / 5) 1 = .ok d2
      ∧ d2 = d1 - 1 / 5 * ratCMath.sqrt 1 :=
  calcD2_calcD1 ratCMath (1 / 5) 100 100 (1 / 20) 1 (by norm_num) (by norm_num) (by norm_num)

/-- C2: for `vol > 0`, `timeToExp > 0`, `strikePri > 0` and every `stockPri`, `rf`, `calcD1`
returns `(1/(vol*√T)) * (ln(S/K) + (rf + vol²/2)*T)`; at `vol = 0.2`, `S = K = 100`,
`rf = 0.05`, `T = 1` the value is exactly `0.35`. -/
theorem calcD1_value :
    (∀ vol stockPri strikePri rf timeToExp : ℝ,
        0 < vol → 0 < timeToExp → 0 < strikePri →
        calcD1 realCMath vol stockPri strikePri rf timeToExp =
          .ok ((1 / (vol * Real.sqrt timeToExp)) *
            (Real.log (stockPri / strikePri) + (rf + vol ^ 2 / 2) * timeToExp)))
      ∧ calcD1 realCMath 0.2 100 100 0.05 1 = .ok 0.35 := by
  have gen : ∀ vol stockPri strikePri rf timeToExp : ℝ,
      0 < vol → 0 < timeToExp → 0 < strikePri →
      calcD1 realCMath vol stockPri strikePri rf timeToExp =
        .ok ((1 / (vol * Real.sqrt timeToExp)) *
          (Real.log (stockPri / strikePri) + (rf + vol ^ 2 / 2) * timeToExp)) := by
    intro vol stockPri strikePri rf timeToExp hv ht hk
    rw [calcD1_ok realCMath vol stockPri strikePri rf timeToExp hv ht hk]
    rw [pow_two]
    rfl
  refine ⟨gen, ?_⟩
  rw [gen 0.2 100 100 0.05 1 (by norm_num) (by norm_num) (by norm_num)]
  congr 1
  rw [Real.sqrt_one, div_self (by norm_num : (100 : ℝ) ≠ 0), Real.log_one]
  norm_num

theorem calcD1_value_witness :
    calcD1 realCMath 2 3 4 5 9 =
      .ok ((1 / (2 * Real.sqrt 9)) * (Real.log (3 / 4) + (5 + 2 ^ 2 / 2) * 9)) :=
  calcD1_value.1 2 3 4 5 9 (by norm_num) (by norm_num) (by norm_num)

end Derivation

/-! ## Consequences of the `<cmath>` properties -/

section Laws

variable {α : Type} [LinearOrderedField α]

theorem half_eq : (0.5 : α) = 1 / 2 := by norm_num

theorem laws_sqrt_one (m : CMath α) (hm : CMathLaws m) : m.sqrt 1 = 1 := by
  have h := hm.sqrt_mul_self 1 zero_le_one
  rwa [mul_one] at h

theorem laws_exp_neg_zero_mul (m : CMath α) (hm : CMathLaws m) (t : α) :
    m.exp (-0 * t) = 1 := by
  rw [neg_zero, zero_mul, hm.exp_zero]

theorem laws_erfc_lt_two (m : CMath α) (hm : CMathLaws m) (x : α) : m.erfc x < 2 := by
  have h := hm.erfc_neg (-x)
  rw [neg_neg] at h
  have := hm.erfc_pos (-x)
  linarith

theorem laws_half_root_pos (m : CMath α) (hm : CMathLaws m) : 0 < HALF_ROOT m :=
  hm.sqrt_pos 0.5 (by norm_num)

theorem cdfNorm_neg (m : CMath α) (hm : CMathLaws m) (x : α) :
    cdfNorm m (-x) = 1 - cdfNorm m x := by
  unfold cdfNorm
  have h : - -x * HALF_ROOT m = -(-x * HALF_ROOT m) := by ring
  rw [h, hm.erfc_neg, half_eq]
  ring

theorem cdfNorm_pos (m : CMath α) (hm : CMathLaws m) (x : α) : 0 < cdfNorm m x :=
  mul_pos (by norm_num) (hm.erfc_pos _)

theorem cdfNorm_lt_one (m : CMath α) (hm : CMathLaws m) (x : α) : cdfNorm m x < 1 := by
  unfold cdfNorm
  have h := laws_erfc_lt_two m hm (-x * HALF_ROOT m)
  rw [half_eq]
  linarith

theorem cdfNorm_strictMono (m : CMath α) (hm : CMathLaws m) {x y : α} (h : x < y) :
    cdfNorm m x < cdfNorm m y := by
  unfold cdfNorm
  have hlt : -y * HALF_ROOT m < -x * HALF_ROOT m :=
    mul_lt_mul_of_pos_right (neg_lt_neg h) (laws_half_root_pos m hm)
  exact mul_lt_mul_of_pos_left (hm.erfc_strictAnti _ _ hlt) (by norm_num)

theorem cdfNorm_half_le (m : CMath α) (hm : CMathLaws m) (x : α) (hx : 0 ≤ x) :
    1 / 2 ≤ cdfNorm m x := by
  unfold cdfNorm
  have hle : -x * HALF_ROOT m ≤ 0 := by
    have := mul_nonneg hx (laws_half_root_pos m hm).le
    linarith
  have h1 : 1 ≤ m.erfc (-x * HALF_ROOT m) := by
    rcases hle.lt_or_eq with hlt | heq
    · have := hm.erfc_strictAnti _ _ hlt
      rw [hm.erfc_zero] at this
      exact this.le
    · rw [heq, hm.erfc_zero]
  rw [half_eq]
  linarith

theorem call_sub_put (m : CMath α) (hm : CMathLaws m)
    (vol stockPri strikePri rf timeToExp d1 d2 : α) :
    blackScholesCall m vol stockPri strikePri rf timeToExp d1 d2
        - blackScholesPut m vol stockPri strikePri rf timeToExp d1 d2
      = stockPri - strikePri * m.exp (-rf * timeToExp) := by
  unfold blackScholesCall blackScholesPut
  rw [cdfNorm_neg m hm d1, cdfNorm_neg m hm d2]
  ring

theorem calcVega_eq_zero_iff (m : CMath α) (hm : CMathLaws m) (stockPri d1 timeToExp : α)
    (ht : 0 < timeToExp) :
    calcVega m stockPri d1 timeToExp = 0 ↔ stockPri = 0 := by
  have h1 := (cdfNorm_pos m hm d1).ne'
  have h2 : m.sqrt timeToExp ≠ 0 := (hm.sqrt_pos timeToExp ht).ne'
  unfold calcVega
  constructor
  · intro h
    rcases mul_eq_zero.mp h with h3 | h3
    · rcases mul_eq_zero.mp h3 with h4 | h4
      · exact h4
      · exact absurd h4 h1
    · exact absurd h3 h2
  · intro h
    rw [h, zero_mul, zero_mul]

end Laws

/-! ## The distribution utility and the pricing functions over the reals -/

section Pricing

/-- C10: `cdfNorm 0 = 0.5` and, for every real `x`, `cdfNorm (-x) = 1 - cdfNorm x`, where
`cdfNorm x = 0.5 * erfc (-x * sqrt 0.5)`. -/
theorem cdfNorm_symmetric :
    cdfNorm realCMath 0 = 0.5
      ∧ (∀ x : ℝ, cdfNorm realCMath (-x) = 1 - cdfNorm realCMath x)
      ∧ (∀ x : ℝ, cdfNorm realCMath x = 0.5 * erfc (-x * Real.sqrt 0.5)) := by
  refine ⟨?_, cdfNorm_neg realCMath realCMath_facts.1, fun _ => rfl⟩
  unfold cdfNorm
  rw [neg_zero, zero_mul, realCMath_facts.1.erfc_zero, mul_one]

/-- C5: put-call parity. With the same `d1`, `d2` passed to both pricing functions,
`blackScholesCall - blackScholesPut = S - K * exp (-rf * T)` exactly over the reals, hence
within `1e-6`. -/
theorem put_call_parity (vol stockPri strikePri rf timeToExp d1 d2 : ℝ) :
    blackScholesCall realCMath vol stockPri strikePri rf timeToExp d1 d2
        - blackScholesPut realCMath vol stockPri strikePri rf timeToExp d1 d2
      = stockPri - strikePri * Real.exp (-rf * timeToExp)
    ∧ |(blackScholesCall realCMath vol stockPri strikePri rf timeToExp d1 d2
        - blackScholesPut realCMath vol stockPri strikePri rf timeToExp d1 d2)
        - (stockPri - strikePri * Real.exp (-rf * timeToExp))| ≤ 1e-6 := by
  have h : blackScholesCall realCMath vol stockPri strikePri rf timeToExp d1 d2
        - blackScholesPut realCMath vol stockPri strikePri rf timeToExp d1 d2
      = stockPri - strikePri * Real.exp (-rf * timeToExp) :=
    call_sub_put realCMath realCMath_facts.1 vol stockPri strikePri rf timeToExp d1 d2
  refine ⟨h, ?_⟩
  rw [h, sub_self, abs_zero]
  norm_num

end Pricing

/-! ## The solver loop -/

section Solver

variable {α : Type} [LinearOrderedField α]

theorem whileLoop_of_not_cond (m : CMath α) (isCallOption : Bool)
    (callPrice stockPri strikePri rf timeToExp : α) (s : LoopState α) (hc : ¬ loopCond s) :
    whileLoop m isCallOption callPrice stockPri strikePri rf timeToExp s = .ok s.closestVol := by
  rw [whileLoop, dif_neg hc]

theorem whileLoop_of_error (m : CMath α) (isCallOption : Bool)
    (callPrice stockPri strikePri rf timeToExp : α) (s : LoopState α) (e : Exception)
    (hc : loopCond s)
    (hb : loopBody m isCallOption callPrice stockPri strikePri rf timeToExp s = .error e) :
    whileLoop m isCallOption callPrice stockPri strikePri rf timeToExp s = .error e := by
  rw [whileLoop, dif_pos hc]
  split <;> simp_all

theorem whileLoop_of_ret (m : CMath α) (isCallOption : Bool)
    (callPrice stockPri strikePri rf timeToExp : α) (s : LoopState α) (v : α)
    (hc : loopCond s)
    (hb : loopBody m isCallOption callPrice stockPri strikePri rf timeToExp s = .ok (.ret v)) :
    whileLoop m isCallOption callPrice stockPri strikePri rf timeToExp s = .ok v := by
  rw [whileLoop, dif_pos hc]
  split <;> simp_all

theorem whileLoop_of_next (m : CMath α) (isCallOption : Bool)
    (callPrice stockPri strikePri rf timeToExp : α) (s s' : LoopState α)
    (hc : loopCond s)
    (hb : loopBody m isCallOption callPrice stockPri strikePri rf timeToExp s = .ok (.next s')) :
    whileLoop m isCallOption callPrice stockPri strikePri rf timeToExp s
      = whileLoop m isCallOption callPrice stockPri strikePri rf timeToExp s' := by
  rw [whileLoop, dif_pos hc]
  split <;> simp_all

/-- The body throws what `calcD1` throws. -/
theorem loopBody_of_d1_error (m : CMath α) (isCallOption : Bool)
    (callPrice stockPri strikePri rf timeToExp : α) (s : LoopState α) (e : Exception)
    (h : calcD1 m s.closestVol stockPri strikePri rf timeToExp = .error e) :
    loopBody m isCallOption callPrice stockPri strikePri rf timeToExp s = .error e := by
  unfold loopBody
  simp only [h]

/-- The body once `calcD1` has returned `d1`: `calcD2` returns too, and the body either
returns `-1` (zero vega) or goes on with the Newton step. -/
theorem loopBody_of_d1_ok (m : CMath α) (isCallOption : Bool)
    (callPrice stockPri strikePri rf timeToExp : α) (s : LoopState α) (d1 : α)
    (h : calcD1 m s.closestVol stockPri strikePri rf timeToExp = .ok d1) :
    loopBody m isCallOption callPrice stockPri strikePri rf timeToExp s =
      if calcVega m stockPri d1 timeToExp = 0 then .ok (.ret (-1))
      else .ok (.next
        ⟨|((s.closestVol -
              (blackScholesFunction m isCallOption s.closestVol stockPri strikePri rf timeToExp
                  d1 (d1 - s.closestVol * m.sqrt timeToExp) - callPrice)
                / calcVega m stockPri d1 timeToExp) - s.closestVol) / s.closestVol|,
          s.iterCount + 1,
          s.closestVol -
              (blackScholesFunction m isCallOption s.closestVol stockPri strikePri rf timeToExp
                  d1 (d1 - s.closestVol * m.sqrt timeToExp) - callPrice)
                / calcVega m stockPri d1 timeToExp⟩) := by
  obtain ⟨hv, ht, _⟩ := calcD1_ok_pos m _ _ _ _ _ _ h
  unfold loopBody
  simp only [h, calcD2_ok m d1 s.closestVol timeToExp hv ht]

/-- The solver is the loop run from any state the loop reaches. -/
theorem calcImpliedVolatility_eq_whileLoop (m : CMath α) (isCallOption : Bool)
    (callPrice stockPri strikePri rf timeToExp : α) (n : Nat) (s : LoopState α)
    (h : stateAfter m isCallOption callPrice stockPri strikePri rf timeToExp n = some s) :
    calcImpliedVolatility m isCallOption callPrice stockPri strikePri rf timeToExp
      = whileLoop m isCallOption callPrice stockPri strikePri rf timeToExp s := by
  induction n generalizing s with
  | zero =>
    simp only [stateAfter, Option.some.injEq] at h
    rw [← h]; rfl
  | succ n ih =>
    simp only [stateAfter] at h
    split at h
    · cases h
    · rename_i s0 h0
      split at h
      · rename_i hc
        split at h
        · rename_i s1 hb
          simp only [Option.some.injEq] at h
          rw [ih s0 h0, whileLoop_of_next m _ _ _ _ _ _ s0 s1 hc hb, h]
        · cases h
      · cases h

theorem initState_loopCond : loopCond (initState : LoopState α) := by
  unfold loopCond initState APPROX_TOLERANCE MAX_ITERATIONS
  constructor
  · norm_num
  · norm_num

/-- After `n` complete executions of the body the counter is `n`. -/
theorem stateAfter_iterCount (m : CMath α) (isCallOption : Bool)
    (callPrice stockPri strikePri rf timeToExp : α) (n : Nat) (s : LoopState α)
    (h : stateAfter m isCallOption callPrice stockPri strikePri rf timeToExp n = some s) :
    s.iterCount = n := by
  induction n generalizing s with
  | zero =>
    simp only [stateAfter, Option.some.injEq] at h
    rw [← h]; rfl
  | succ n ih =>
    simp only [stateAfter] at h
    split at h
    · cases h
    · rename_i s0 h0
      split at h
      · split at h
        · rename_i s1 hb
          simp only [Option.some.injEq] at h
          have hd : ∃ d1, calcD1 m s0.closestVol stockPri strikePri rf timeToExp = .ok d1 := by
            cases hd1 : calcD1 m s0.closestVol stockPri strikePri rf timeToExp with
            | error e =>
              rw [loopBody_of_d1_error m _ _ _ _ _ _ s0 e hd1] at hb
              cases hb
            | ok d1 => exact ⟨d1, rfl⟩
          obtain ⟨d1, hd1⟩ := hd
          rw [loopBody_of_d1_ok m _ _ _ _ _ _ s0 d1 hd1] at hb
          split at hb
          · cases hb
          · simp only [Except.ok.injEq, BodyResult.next.injEq] at hb
            rw [← h, ← hb, ih s0 h0]
        · cases h
      · cases h

theorem stateAfter_succ (m : CMath α) (isCallOption : Bool)
    (callPrice stockPri strikePri rf timeToExp : α) (n : Nat) (s s' : LoopState α)
    (h : stateAfter m isCallOption callPrice stockPri strikePri rf timeToExp n = some s)
    (hc : loopCond s)
    (hb : loopBody m isCallOption callPrice stockPri strikePri rf timeToExp s = .ok (.next s')) :
    stateAfter m isCallOption callPrice stockPri strikePri rf timeToExp (n + 1) = some s' := by
  simp only [stateAfter, h, if_pos hc, hb]

/-- The zero-vega exit at a state the loop has reached. -/
theorem zero_vega_at (m : CMath α) (isCallOption : Bool)
    (callPrice stockPri strikePri rf timeToExp : α) (n : Nat) (s : LoopState α) (d1 : α)
    (h : stateAfter m isCallOption callPrice stockPri strikePri rf timeToExp n = some s)
    (hc : loopCond s)
    (hd1 : calcD1 m s.closestVol stockPri strikePri rf timeToExp = .ok d1)
    (hv : calcVega m stockPri d1 timeToExp = 0) :
    loopBody m isCallOption callPrice stockPri strikePri rf timeToExp s = .ok (.ret (-1))
      ∧ calcImpliedVolatility m isCallOption callPrice stockPri strikePri rf timeToExp
          = .ok (-1) := by
  have hb : loopBody m isCallOption callPrice stockPri strikePri rf timeToExp s
      = .ok (.ret (-1)) := by
    rw [loopBody_of_d1_ok m _ _ _ _ _ _ s d1 hd1, if_pos hv]
  exact ⟨hb, by
    rw [calcImpliedVolatility_eq_whileLoop m _ _ _ _ _ _ n s h,
      whileLoop_of_ret m _ _ _ _ _ _ s (-1) hc hb]⟩

/-- C7: zero-derivative degeneracy. For `strikePri > 0`, `timeToExp > 0`: if at an iteration
the solver reaches `calcD1` returns `d1` and `calcVega` is exactly `0` there, the body returns
`-1` at that iteration and `calcImpliedVolatility` returns `-1` (no exception); in particular
this holds at the first iteration when `calcVega` at `calcD1 1 ..` is `0`, e.g. for
`stockPri = 0`. -/
theorem zero_vega_sentinel (m : CMath α) (isCallOption : Bool)
    (callPrice stockPri strikePri rf timeToExp : α)
    (hk : 0 < strikePri) (ht : 0 < timeToExp) :
    (∀ (n : Nat) (s : LoopState α) (d1 : α),
        stateAfter m isCallOption callPrice stockPri strikePri rf timeToExp n = some s →
        loopCond s →
        calcD1 m s.closestVol stockPri strikePri rf timeToExp = .ok d1 →
        calcVega m stockPri d1 timeToExp = 0 →
        loopBody m isCallOption callPrice stockPri strikePri rf timeToExp s = .ok (.ret (-1))
          ∧ calcImpliedVolatility m isCallOption callPrice stockPri strikePri rf timeToExp
              = .ok (-1))
      ∧ (∃ d1, calcD1 m 1 stockPri strikePri rf timeToExp = .ok d1
          ∧ (calcVega m stockPri d1 timeToExp = 0 →
              calcImpliedVolatility m isCallOption callPrice stockPri strikePri rf timeToExp
                = .ok (-1)))
      ∧ calcImpliedVolatility m isCallOption callPrice 0 strikePri rf timeToExp = .ok (-1) := by
  refine ⟨fun n s d1 h hc hd1 hv => zero_vega_at m _ _ _ _ _ _ n s d1 h hc hd1 hv, ?_, ?_⟩
  · refine ⟨_, calcD1_ok m 1 stockPri strikePri rf timeToExp one_pos ht hk, fun hv => ?_⟩
    exact (zero_vega_at m isCallOption callPrice stockPri strikePri rf timeToExp 0 initState _
      rfl initState_loopCond
      (calcD1_ok m 1 stockPri strikePri rf timeToExp one_pos ht hk) hv).2
  · exact (zero_vega_at m isCallOption callPrice 0 strikePri rf timeToExp 0 initState _
      rfl initState_loopCond
      (calcD1_ok m 1 0 strikePri rf timeToExp one_pos ht hk)
      (by unfold calcVega; rw [zero_mul, zero_mul])).2

theorem zero_vega_sentinel_witness :
    calcImpliedVolatility ratCMath true 5 0 1 0 1 = .ok (-1) :=
  (zero_vega_sentinel ratCMath true 5 0 1 0 1 (by norm_num) (by norm_num)).2.2

/-- C8: validation errors propagate out of the solver on the initial call. If
`timeToExp ≤ 0` or `strikePri ≤ 0`, the loop condition holds initially, the first execution
of the body throws `invalid_argument` (from `calcD1`), and so does `calcImpliedVolatility`. -/
theorem calcImpliedVolatility_invalid (m : CMath α) (isCallOption : Bool)
    (callPrice stockPri strikePri rf timeToExp : α)
    (h : timeToExp ≤ 0 ∨ strikePri ≤ 0) :
    loopCond (initState : LoopState α)
      ∧ ∃ what,
        loopBody m isCallOption callPrice stockPri strikePri rf timeToExp initState
            = .error (.invalid_argument what)
        ∧ calcImpliedVolatility m isCallOption callPrice stockPri strikePri rf timeToExp
            = .error (.invalid_argument what) := by
  have hd1 := calcD1_error m (initState : LoopState α).closestVol stockPri strikePri rf
    timeToExp (Or.inr h)
  have hb := loopBody_of_d1_error m isCallOption callPrice stockPri strikePri rf timeToExp
    initState _ hd1
  refine ⟨initState_loopCond, _, hb, ?_⟩
  unfold calcImpliedVolatility
  exact whileLoop_of_error m _ _ _ _ _ _ initState _ initState_loopCond hb

theorem calcImpliedVolatility_invalid_witness :
    loopCond (initState : LoopState ℚ)
      ∧ ∃ what,
        loopBody ratCMath false 10 100 100 (1 / 20) 0 initState
            = .error (.invalid_argument what)
        ∧ calcImpliedVolatility ratCMath false 10 100 100 (1 / 20) 0
            = .error (.invalid_argument what) :=
  calcImpliedVolatility_invalid ratCMath false 10 100 100 (1 / 20) 0 (Or.inl (le_refl 0))

theorem one_gt_APPROX_TOLERANCE : (1 : α) > APPROX_TOLERANCE := by
  unfold APPROX_TOLERANCE
  norm_num

/-- A step to a non-positive guess has relative change at least 1. -/
theorem one_le_relative_change (v w : α) (hv : 0 < v) (hw : w ≤ 0) :
    1 ≤ |(w - v) / v| := by
  have h1 : (w - v) / v ≤ -1 := by
    rw [div_le_iff₀ hv]
    linarith
  have h2 : |(w - v) / v| = -((w - v) / v) := abs_of_nonpos (by linarith)
  rw [h2]
  linarith

/-- The mid-solve failure: a non-positive new guess produced by an iteration numbered
below `MAX_ITERATIONS` makes the next iteration throw. -/
theorem nonpositive_guess_throws (m : CMath α) (isCallOption : Bool)
    (callPrice stockPri strikePri rf timeToExp : α) (n : Nat) (s s' : LoopState α)
    (h : stateAfter m isCallOption callPrice stockPri strikePri rf timeToExp n = some s)
    (hc : loopCond s)
    (hb : loopBody m isCallOption callPrice stockPri strikePri rf timeToExp s = .ok (.next s'))
    (hn : n + 1 < MAX_ITERATIONS) (hle : s'.closestVol ≤ 0) :
    1 ≤ s'.currDiff ∧ loopCond s'
      ∧ ∃ what,
        loopBody m isCallOption callPrice stockPri strikePri rf timeToExp s'
            = .error (.invalid_argument what)
        ∧ calcImpliedVolatility m isCallOption callPrice stockPri strikePri rf timeToExp
            = .error (.invalid_argument what) := by
  have hs' := stateAfter_succ m _ _ _ _ _ _ n s s' h hc hb
  have hcount := stateAfter_iterCount m _ _ _ _ _ _ (n + 1) s' hs'
  have hdiff : 1 ≤ s'.currDiff := by
    cases hd1 : calcD1 m s.closestVol stockPri strikePri rf timeToExp with
    | error e =>
      rw [loopBody_of_d1_error m _ _ _ _ _ _ s e hd1] at hb
      cases hb
    | ok d1 =>
      obtain ⟨hv, _, _⟩ := calcD1_ok_pos m _ _ _ _ _ _ hd1
      rw [loopBody_of_d1_ok m _ _ _ _ _ _ s d1 hd1] at hb
      split at hb
      · cases hb
      · simp only [Except.ok.injEq, BodyResult.next.injEq] at hb
        rw [← hb] at hle ⊢
        exact one_le_relative_change _ _ hv hle
  have hc' : loopCond s' :=
    ⟨lt_of_lt_of_le one_gt_APPROX_TOLERANCE hdiff, by rw [hcount]; exact hn⟩
  have hd1' := calcD1_error m s'.closestVol stockPri strikePri rf timeToExp (Or.inl hle)
  have hb' := loopBody_of_d1_error m isCallOption callPrice stockPri strikePri rf timeToExp
    s' _ hd1'
  refine ⟨hdiff, hc', _, hb', ?_⟩
  rw [calcImpliedVolatility_eq_whileLoop m _ _ _ _ _ _ (n + 1) s' hs']
  exact whileLoop_of_error m _ _ _ _ _ _ s' _ hc' hb'

theorem stateAfter_succ_inv (m : CMath α) (isCallOption : Bool)
    (callPrice stockPri strikePri rf timeToExp : α) (n : Nat) (s' : LoopState α)
    (h : stateAfter m isCallOption callPrice stockPri strikePri rf timeToExp (n + 1) = some s') :
    ∃ s, stateAfter m isCallOption callPrice stockPri strikePri rf timeToExp n = some s
      ∧ loopCond s
      ∧ loopBody m isCallOption callPrice stockPri strikePri rf timeToExp s = .ok (.next s') := by
  simp only [stateAfter] at h
  split at h
  · cases h
  · rename_i s0 h0
    split at h
    · rename_i hc
      split at h
      · rename_i s1 hb
        simp only [Option.some.injEq] at h
        exact ⟨s0, h0, hc, by rw [hb, h]⟩
      · cases h
    · cases h

/-- What the convergence exit guarantees: the loop left at the loop head after `n + 1 <
MAX_ITERATIONS` iterations returns the last guess, whose relative distance from the guess
before it is at most the tolerance, so the price residual at that earlier guess is at most
`APPROX_TOLERANCE * guess * |vega|`. -/
theorem convergence_exit (m : CMath α) (isCallOption : Bool)
    (callPrice stockPri strikePri rf timeToExp : α) (n : Nat) (s s' : LoopState α)
    (h : stateAfter m isCallOption callPrice stockPri strikePri rf timeToExp n = some s)
    (h' : stateAfter m isCallOption callPrice stockPri strikePri rf timeToExp (n + 1) = some s')
    (hexit : ¬ loopCond s') (hn : n + 1 < MAX_ITERATIONS) :
    calcImpliedVolatility m isCallOption callPrice stockPri strikePri rf timeToExp
        = .ok s'.closestVol
      ∧ 0 < s.closestVol
      ∧ |s'.closestVol - s.closestVol| ≤ APPROX_TOLERANCE * s.closestVol
      ∧ ∃ d1 d2, calcD1 m s.closestVol stockPri strikePri rf timeToExp = .ok d1
          ∧ calcD2 m d1 s.closestVol timeToExp = .ok d2
          ∧ |blackScholesFunction m isCallOption s.closestVol stockPri strikePri rf timeToExp
                d1 d2 - callPrice|
              ≤ APPROX_TOLERANCE * s.closestVol * |calcVega m stockPri d1 timeToExp| := by
  obtain ⟨s0, h0, _, hb⟩ := stateAfter_succ_inv m _ _ _ _ _ _ n s' h'
  rw [h] at h0
  simp only [Option.some.injEq] at h0
  subst h0
  have hcount := stateAfter_iterCount m _ _ _ _ _ _ (n + 1) s' h'
  have hdiff : s'.currDiff ≤ APPROX_TOLERANCE := by
    by_contra hgt
    exact hexit ⟨lt_of_not_le hgt, by rw [hcount]; exact hn⟩
  refine ⟨by rw [calcImpliedVolatility_eq_whileLoop m _ _ _ _ _ _ (n + 1) s' h',
    whileLoop_of_not_cond m _ _ _ _ _ _ s' hexit], ?_⟩
  cases hd1 : calcD1 m s.closestVol stockPri strikePri rf timeToExp with
  | error e =>
    rw [loopBody_of_d1_error m _ _ _ _ _ _ s e hd1] at hb
    cases hb
  | ok d1 =>
    obtain ⟨hv, ht, _⟩ := calcD1_ok_pos m _ _ _ _ _ _ hd1
    rw [loopBody_of_d1_ok m _ _ _ _ _ _ s d1 hd1] at hb
    split at hb
    · cases hb
    · rename_i hvega
      simp only [Except.ok.injEq, BodyResult.next.injEq] at hb
      rw [← hb] at hdiff ⊢
      simp only at hdiff ⊢
      rw [abs_div, abs_of_pos hv, div_le_iff₀ hv] at hdiff
      refine ⟨hv, hdiff, d1, _, rfl, calcD2_ok m d1 s.closestVol timeToExp hv ht, ?_⟩
      rw [sub_sub_cancel_left, abs_neg, abs_div,
        div_le_iff₀ (abs_pos.mpr hvega)] at hdiff
      exact hdiff

end Solver

/-! ## The solver under the `<cmath>` properties -/

section LawsSolver

variable {α : Type} [LinearOrderedField α]

/-- On `marketPrice = -1000`, `S = K = 1`, `rf = 0`, `T = 1` the first iteration of a call
solve goes on with a non-positive guess. -/
theorem first_step_example (m : CMath α) (hm : CMathLaws m) :
    ∃ s1 : LoopState α,
      loopBody m true (-1000) 1 1 0 1 initState = .ok (.next s1)
        ∧ s1.closestVol ≤ 0 := by
  have hd1 := calcD1_ok m 1 1 1 0 1 one_pos one_pos one_pos
  have hb := loopBody_of_d1_ok m true (-1000) 1 1 0 1 initState _ hd1
  have hsqrt : m.sqrt 1 = 1 := laws_sqrt_one m hm
  have hexp : m.exp (-0 * 1) = 1 := laws_exp_neg_zero_mul m hm 1
  generalize 1 / (1 * m.sqrt 1) *
    (m.log (1 / 1) + (0 + 1 * 1 / 2) * 1) = d1 at hb
  have hvega : calcVega m 1 d1 1 = cdfNorm m d1 := by
    unfold calcVega
    rw [hsqrt, one_mul, mul_one]
  have hpos := cdfNorm_pos m hm d1
  rw [if_neg (by rw [hvega]; exact hpos.ne')] at hb
  refine ⟨_, hb, ?_⟩
  show (1 : α) - (blackScholesFunction m true 1 1 1 0 1 d1 (d1 - 1 * m.sqrt 1)
      - -1000) / calcVega m 1 d1 1 ≤ 0
  rw [hvega, sub_nonpos, le_div_iff₀ hpos, one_mul]
  have hlt := cdfNorm_lt_one m hm (d1 - 1 * m.sqrt 1)
  simp only [blackScholesFunction, if_true, blackScholesCall, hexp]
  linarith

theorem d1Value_unit (m : CMath α) (hm : CMathLaws m) (v : α) :
    d1Value m v 1 1 0 1 = v / 2 := by
  unfold d1Value
  rw [laws_sqrt_one m hm, div_one, hm.log_one]
  by_cases hv : v = 0
  · rw [hv]; norm_num
  · field_simp

theorem d2Value_unit (m : CMath α) (hm : CMathLaws m) (v : α) :
    d2Value m (v / 2) v 1 = -(v / 2) := by
  unfold d2Value
  rw [laws_sqrt_one m hm]
  ring

/-- With `S = K = 1`, `rf = 0`, `T = 1` the call price and the put price at volatility `v`
are both `erfc (-(v/2) * sqrt 0.5) - 1`. -/
theorem unit_price_eq (m : CMath α) (hm : CMathLaws m) (isCallOption : Bool) (v : α) :
    blackScholesFunction m isCallOption v 1 1 0 1 (d1Value m v 1 1 0 1)
        (d2Value m (d1Value m v 1 1 0 1) v 1)
      = m.erfc (-(v / 2) * m.sqrt 0.5) - 1 := by
  rw [d1Value_unit m hm, d2Value_unit m hm]
  have hexp : m.exp (-0 * 1) = 1 := laws_exp_neg_zero_mul m hm 1
  have hneg := cdfNorm_neg m hm (v / 2)
  have hcdf : cdfNorm m (v / 2) = 1 / 2 * m.erfc (-(v / 2) * m.sqrt 0.5) := by
    unfold cdfNorm HALF_ROOT
    rw [half_eq]
  cases isCallOption
  · simp only [blackScholesFunction, Bool.false_eq_true, if_false, blackScholesPut, hexp,
      neg_neg]
    rw [hneg, hcdf]
    ring
  · simp only [blackScholesFunction, if_true, blackScholesCall, hexp]
    rw [hneg, hcdf]
    ring

/-- When the market price is the price at the initial guess, the first element of the
reference sequence is again `1`. -/
theorem referenceSeq_one_fixed (m : CMath α) (stockPri strikePri rf timeToExp : α) :
    referenceSeq m true
        (blackScholesCall m 1 stockPri strikePri rf timeToExp
          (d1Value m 1 stockPri strikePri rf timeToExp)
          (d2Value m (d1Value m 1 stockPri strikePri rf timeToExp) 1 timeToExp))
        stockPri strikePri rf timeToExp 1 = 1 := by
  have h : referenceSeq m true
        (blackScholesCall m 1 stockPri strikePri rf timeToExp
          (d1Value m 1 stockPri strikePri rf timeToExp)
          (d2Value m (d1Value m 1 stockPri strikePri rf timeToExp) 1 timeToExp))
        stockPri strikePri rf timeToExp 1
      = 1 - (blackScholesCall m 1 stockPri strikePri rf timeToExp
              (d1Value m 1 stockPri strikePri rf timeToExp)
              (d2Value m (d1Value m 1 stockPri strikePri rf timeToExp) 1 timeToExp)
            - blackScholesCall m 1 stockPri strikePri rf timeToExp
              (d1Value m 1 stockPri strikePri rf timeToExp)
              (d2Value m (d1Value m 1 stockPri strikePri rf timeToExp) 1 timeToExp))
          / calcVega m stockPri (d1Value m 1 stockPri strikePri rf timeToExp) timeToExp := rfl
  rw [h, sub_self, zero_div, sub_zero]

end LawsSolver

/-! ## The solver over the reals -/

section RealSolver

/-- C9: a solve can fail mid-iteration. Whenever an iteration numbered below 1000 produces a
new guess `≤ 0`, its relative change is `≥ 1 > 1e-4`, the loop goes on and the next iteration
(hence `calcImpliedVolatility`) throws `invalid_argument`; and on `isCall = true`,
`marketPrice = -1000`, `S = K = 1`, `rf = 0`, `T = 1` the first iteration succeeds and the
second throws. -/
theorem mid_solve_failure :
    (∀ (m : CMath ℝ) (isCallOption : Bool) (callPrice stockPri strikePri rf timeToExp : ℝ)
        (n : Nat) (s s' : LoopState ℝ),
        0 < strikePri → 0 < timeToExp →
        stateAfter m isCallOption callPrice stockPri strikePri rf timeToExp n = some s →
        loopCond s →
        loopBody m isCallOption callPrice stockPri strikePri rf timeToExp s = .ok (.next s') →
        n + 1 < 1000 → s'.closestVol ≤ 0 →
        1 ≤ s'.currDiff ∧ (1 : ℝ) > 1e-4 ∧ loopCond s'
          ∧ ∃ what,
            loopBody m isCallOption callPrice stockPri strikePri rf timeToExp s'
                = .error (.invalid_argument what)
            ∧ calcImpliedVolatility m isCallOption callPrice stockPri strikePri rf timeToExp
                = .error (.invalid_argument what))
      ∧ (∃ s1 : LoopState ℝ,
          stateAfter realCMath true (-1000) 1 1 0 1 1 = some s1
            ∧ ∃ what,
              loopBody realCMath true (-1000) 1 1 0 1 s1 = .error (.invalid_argument what)
              ∧ calcImpliedVolatility realCMath true (-1000) 1 1 0 1
                  = .error (.invalid_argument what)) := by
  constructor
  · intro m isCallOption callPrice stockPri strikePri rf timeToExp n s s' _ _ h hc hb hn hle
    obtain ⟨h1, h2, h3⟩ := nonpositive_guess_throws m isCallOption callPrice stockPri strikePri
      rf timeToExp n s s' h hc hb hn hle
    exact ⟨h1, by norm_num, h2, h3⟩
  · obtain ⟨s1, hb, hle⟩ := first_step_example realCMath realCMath_facts.1
    have h := nonpositive_guess_throws realCMath true (-1000) 1 1 0 1 0 initState s1 rfl
      initState_loopCond hb (by unfold MAX_ITERATIONS; norm_num) hle
    exact ⟨s1, stateAfter_succ realCMath true (-1000) 1 1 0 1 0 initState s1 rfl
      initState_loopCond hb, h.2.2⟩

theorem mid_solve_failure_witness :
    ∃ s1 : LoopState ℝ,
      loopBody realCMath true (-1000) 1 1 0 1 initState = .ok (.next s1)
        ∧ s1.closestVol ≤ 0 ∧ 1 ≤ s1.currDiff ∧ loopCond s1 := by
  obtain ⟨s1, hb, hle⟩ := first_step_example realCMath realCMath_facts.1
  have h := mid_solve_failure.1 realCMath true (-1000) 1 1 0 1 0 initState s1
    one_pos one_pos rfl initState_loopCond hb (by norm_num) hle
  exact ⟨s1, hb, hle, h.1, h.2.2.1⟩

end RealSolver

/-! ## Further properties of `cdfNorm` and `calcVega` -/

section Distribution

/-- C11: `cdfNorm` is monotonically increasing over the reals: `x ≤ y` gives
`cdfNorm x ≤ cdfNorm y`, and `x < y` gives `cdfNorm x < cdfNorm y`. -/
theorem cdfNorm_monotone :
    (∀ x y : ℝ, x ≤ y → cdfNorm realCMath x ≤ cdfNorm realCMath y)
      ∧ (∀ x y : ℝ, x < y → cdfNorm realCMath x < cdfNorm realCMath y) := by
  refine ⟨fun x y h => ?_, fun x y h => cdfNorm_strictMono realCMath realCMath_facts.1 h⟩
  rcases h.lt_or_eq with hlt | heq
  · exact (cdfNorm_strictMono realCMath realCMath_facts.1 hlt).le
  · rw [heq]

theorem cdfNorm_monotone_witness :
    cdfNorm realCMath 0 ≤ cdfNorm realCMath 1 ∧ cdfNorm realCMath 0 < cdfNorm realCMath 1 :=
  ⟨cdfNorm_monotone.1 0 1 (by norm_num), cdfNorm_monotone.2 0 1 (by norm_num)⟩

/-- C13: `calcVega S d1 T` is `S * cdfNorm d1 * sqrt T`: the factor at `d1` is the normal
CDF, `0.5 * erfc (-d1 * sqrt 0.5)`, not the normal density. -/
theorem calcVega_eq :
    (∀ (m : CMath ℝ) (stockPri d1 timeToExp : ℝ),
        calcVega m stockPri d1 timeToExp = stockPri * cdfNorm m d1 * m.sqrt timeToExp)
      ∧ (∀ (m : CMath ℝ) (stockPri d1 timeToExp : ℝ),
        calcVega m stockPri d1 timeToExp
          = stockPri * (0.5 * m.erfc (-d1 * m.sqrt 0.5)) * m.sqrt timeToExp) :=
  ⟨fun _ _ _ _ => rfl, fun _ _ _ _ => rfl⟩

end Distribution

/-! ## Termination and exits of the solver -/

section Halting

variable {α : Type} [LinearOrderedField α]

/-- The three ways one body execution can end. -/
theorem loopBody_cases (m : CMath α) (isCallOption : Bool)
    (callPrice stockPri strikePri rf timeToExp : α) (s : LoopState α) :
    (∃ what, loopBody m isCallOption callPrice stockPri strikePri rf timeToExp s
        = .error (.invalid_argument what))
      ∨ (∃ d1, calcD1 m s.closestVol stockPri strikePri rf timeToExp = .ok d1
          ∧ calcVega m stockPri d1 timeToExp = 0
          ∧ loopBody m isCallOption callPrice stockPri strikePri rf timeToExp s
              = .ok (.ret (-1)))
      ∨ (∃ d1 s', calcD1 m s.closestVol stockPri strikePri rf timeToExp = .ok d1
          ∧ calcVega m stockPri d1 timeToExp ≠ 0
          ∧ loopBody m isCallOption callPrice stockPri strikePri rf timeToExp s
              = .ok (.next s')) := by
  cases hd1 : calcD1 m s.closestVol stockPri strikePri rf timeToExp with
  | error e =>
    cases e with
    | invalid_argument what =>
      exact Or.inl ⟨what, loopBody_of_d1_error m _ _ _ _ _ _ s _ hd1⟩
  | ok d1 =>
    have hb := loopBody_of_d1_ok m isCallOption callPrice stockPri strikePri rf timeToExp s d1 hd1
    by_cases hv : calcVega m stockPri d1 timeToExp = 0
    · rw [if_pos hv] at hb
      exact Or.inr (Or.inl ⟨d1, rfl, hv, hb⟩)
    · rw [if_neg hv] at hb
      exact Or.inr (Or.inr ⟨d1, _, rfl, hv, hb⟩)

/-- A `return` from inside the body is the zero-vega return of `-1`. -/
theorem loopBody_ret_inv (m : CMath α) (isCallOption : Bool)
    (callPrice stockPri strikePri rf timeToExp : α) (s : LoopState α) (v : α)
    (h : loopBody m isCallOption callPrice stockPri strikePri rf timeToExp s = .ok (.ret v)) :
    v = -1 ∧ ∃ d1, calcD1 m s.closestVol stockPri strikePri rf timeToExp = .ok d1
      ∧ calcVega m stockPri d1 timeToExp = 0 := by
  rcases loopBody_cases m isCallOption callPrice stockPri strikePri rf timeToExp s with
    ⟨what, hb⟩ | ⟨d1, hd1, hv, hb⟩ | ⟨d1, s', _, _, hb⟩
  · rw [hb] at h; cases h
  · rw [hb] at h
    simp only [Except.ok.injEq, BodyResult.ret.injEq] at h
    exact ⟨h.symm, d1, hd1, hv⟩
  · rw [hb] at h; cases h

/-- From any state the loop has reached with the loop condition true, the loop gets to a last
body execution before the counter reaches `MAX_ITERATIONS`. -/
theorem halts_from (m : CMath α) (isCallOption : Bool)
    (callPrice stockPri strikePri rf timeToExp : α) :
    ∀ (d n : Nat) (s : LoopState α), n + d = MAX_ITERATIONS →
      stateAfter m isCallOption callPrice stockPri strikePri rf timeToExp n = some s →
      loopCond s →
      ∃ (k : Nat) (sk : LoopState α), n ≤ k ∧ k < MAX_ITERATIONS
        ∧ stateAfter m isCallOption callPrice stockPri strikePri rf timeToExp k = some sk
        ∧ leavesAt m isCallOption callPrice stockPri strikePri rf timeToExp sk
            (calcImpliedVolatility m isCallOption callPrice stockPri strikePri rf timeToExp) := by
  intro d
  induction d with
  | zero =>
    intro n s hnd h hc
    have hcount := stateAfter_iterCount m _ _ _ _ _ _ n s h
    have := hc.2
    omega
  | succ d ih =>
    intro n s hnd h hc
    have hres := calcImpliedVolatility_eq_whileLoop m _ _ _ _ _ _ n s h
    have hlt : n < MAX_ITERATIONS := by omega
    rcases loopBody_cases m isCallOption callPrice stockPri strikePri rf timeToExp s with
      ⟨what, hb⟩ | ⟨d1, _, _, hb⟩ | ⟨d1, s', _, _, hb⟩
    · refine ⟨n, s, le_refl n, hlt, h, hc, Or.inl ⟨what, hb, ?_⟩⟩
      rw [hres, whileLoop_of_error m _ _ _ _ _ _ s _ hc hb]
    · refine ⟨n, s, le_refl n, hlt, h, hc, Or.inr (Or.inl ⟨hb, ?_⟩)⟩
      rw [hres, whileLoop_of_ret m _ _ _ _ _ _ s _ hc hb]
    · by_cases hc' : loopCond s'
      · have hs' := stateAfter_succ m _ _ _ _ _ _ n s s' h hc hb
        obtain ⟨k, sk, hk1, hk2, hk3, hk4⟩ := ih (n + 1) s' (by omega) hs' hc'
        exact ⟨k, sk, by omega, hk2, hk3, hk4⟩
      · refine ⟨n, s, le_refl n, hlt, h, hc, Or.inr (Or.inr ⟨s', hb, hc', ?_⟩)⟩
        rw [hres, whileLoop_of_next m _ _ _ _ _ _ s s' hc hb,
          whileLoop_of_not_cond m _ _ _ _ _ _ s' hc']

theorem stateAfter_step (m : CMath α) (isCallOption : Bool)
    (callPrice stockPri strikePri rf timeToExp : α) (n : Nat) :
    stateAfter m isCallOption callPrice stockPri strikePri rf timeToExp (n + 1)
      = match stateAfter m isCallOption callPrice stockPri strikePri rf timeToExp n with
        | none => none
        | some s =>
          if loopCond s then
            match loopBody m isCallOption callPrice stockPri strikePri rf timeToExp s with
            | .ok (.next s') => some s'
            | _ => none
          else none := rfl

theorem stateAfter_none_of_le (m : CMath α) (isCallOption : Bool)
    (callPrice stockPri strikePri rf timeToExp : α) (n j : Nat) (hnj : n ≤ j)
    (h : stateAfter m isCallOption callPrice stockPri strikePri rf timeToExp n = none) :
    stateAfter m isCallOption callPrice stockPri strikePri rf timeToExp j = none := by
  induction j with
  | zero =>
    have : n = 0 := by omega
    rw [← this]; exact h
  | succ j ih =>
    by_cases hj : n = j + 1
    · rw [← hj]; exact h
    · have hj' := ih (by omega)
      rw [stateAfter_step, hj']

/-- After the last body execution no further body execution happens. -/
theorem no_run_after (m : CMath α) (isCallOption : Bool)
    (callPrice stockPri strikePri rf timeToExp : α) (k : Nat) (sk : LoopState α)
    (r : Except Exception α)
    (h : stateAfter m isCallOption callPrice stockPri strikePri rf timeToExp k = some sk)
    (hl : leavesAt m isCallOption callPrice stockPri strikePri rf timeToExp sk r)
    (j : Nat) (hj : k < j) (sj : LoopState α)
    (hsj : stateAfter m isCallOption callPrice stockPri strikePri rf timeToExp j = some sj) :
    ¬ loopCond sj := by
  obtain ⟨hc, hl⟩ := hl
  have hnone : ∀ s1, stateAfter m isCallOption callPrice stockPri strikePri rf timeToExp (k + 1)
      = some s1 → ¬ loopCond s1 := by
    intro s1 h1
    have hk1 : stateAfter m isCallOption callPrice stockPri strikePri rf timeToExp (k + 1)
        = match loopBody m isCallOption callPrice stockPri strikePri rf timeToExp sk with
          | .ok (.next s') => some s'
          | _ => none := by
      simp only [stateAfter, h, if_pos hc]
    rcases hl with ⟨what, hb, _⟩ | ⟨hb, _⟩ | ⟨s', hb, hc', _⟩
    · rw [hk1, hb] at h1; cases h1
    · rw [hk1, hb] at h1; cases h1
    · rw [hk1, hb] at h1
      simp only [Option.some.injEq] at h1
      rw [← h1]; exact hc'
  by_cases hjk : j = k + 1
  · rw [hjk] at hsj; exact hnone sj hsj
  · intro hcj
    have h2 : stateAfter m isCallOption callPrice stockPri strikePri rf timeToExp (k + 1 + 1)
        = none := by
      rw [stateAfter_step]
      cases h1 : stateAfter m isCallOption callPrice stockPri strikePri rf timeToExp (k + 1) with
      | none => rfl
      | some s1 =>
        have := hnone s1 h1
        simp only [if_neg this]
    have := stateAfter_none_of_le m _ _ _ _ _ _ (k + 1 + 1) j (by omega) h2
    rw [this] at hsj
    cases hsj

/-- C14: the solver always halts within the iteration cap. For every input there is a
`k < 1000` such that the loop reaches its `(k+1)`-th body execution, that execution is the
last one (no body execution follows it), and the call then ends by returning a number,
returning `-1`, or throwing `invalid_argument`: the body runs at least once and at most
1000 times. -/
theorem solver_halts (m : CMath α) (isCallOption : Bool)
    (callPrice stockPri strikePri rf timeToExp : α) :
    ∃ (k : Nat) (sk : LoopState α), k < 1000
      ∧ stateAfter m isCallOption callPrice stockPri strikePri rf timeToExp k = some sk
      ∧ leavesAt m isCallOption callPrice stockPri strikePri rf timeToExp sk
          (calcImpliedVolatility m isCallOption callPrice stockPri strikePri rf timeToExp)
      ∧ (∀ (j : Nat) (sj : LoopState α), k < j →
          stateAfter m isCallOption callPrice stockPri strikePri rf timeToExp j = some sj →
          ¬ loopCond sj) := by
  obtain ⟨k, sk, _, hk, hs, hl⟩ := halts_from m isCallOption callPrice stockPri strikePri rf
    timeToExp MAX_ITERATIONS 0 initState (by omega) rfl initState_loopCond
  exact ⟨k, sk, hk, hs, hl, fun j sj hj hsj =>
    no_run_after m _ _ _ _ _ _ k sk _ hs hl j hj sj hsj⟩

end Halting

/-! ## Positivity of converged results, the fixed point and the degenerate branch -/

section Exits

variable {α : Type} [LinearOrderedField α]

theorem APPROX_TOLERANCE_lt_one : (APPROX_TOLERANCE : α) < 1 := one_gt_APPROX_TOLERANCE

/-- C18: a result returned through the convergence exit is strictly positive. If the loop is
left at the loop head after `n + 1 < 1000` iterations, the returned guess is at least
`(1 - 1e-4)` times the previous guess, which is positive, hence it is `> 0`; and if the
solver returns a value `≤ 0`, then vega was exactly `0` at an iteration the solver reached
or the loop ran its full 1000 iterations. -/
theorem convergence_exit_positive (m : CMath α) (isCallOption : Bool)
    (callPrice stockPri strikePri rf timeToExp : α) :
    (∀ (n : Nat) (s s' : LoopState α),
        stateAfter m isCallOption callPrice stockPri strikePri rf timeToExp n = some s →
        stateAfter m isCallOption callPrice stockPri strikePri rf timeToExp (n + 1) = some s' →
        ¬ loopCond s' → n + 1 < 1000 →
        calcImpliedVolatility m isCallOption callPrice stockPri strikePri rf timeToExp
            = .ok s'.closestVol
          ∧ 0 < s.closestVol
          ∧ (1 - APPROX_TOLERANCE) * s.closestVol ≤ s'.closestVol
          ∧ 0 < s'.closestVol)
      ∧ (∀ v : α,
          calcImpliedVolatility m isCallOption callPrice stockPri strikePri rf timeToExp
              = .ok v →
          v ≤ 0 →
          (∃ (n : Nat) (s : LoopState α) (d1 : α),
              stateAfter m isCallOption callPrice stockPri strikePri rf timeToExp n = some s
                ∧ loopCond s
                ∧ calcD1 m s.closestVol stockPri strikePri rf timeToExp = .ok d1
                ∧ calcVega m stockPri d1 timeToExp = 0)
            ∨ (∃ s' : LoopState α,
              stateAfter m isCallOption callPrice stockPri strikePri rf timeToExp 1000
                = some s')) := by
  have part1 : ∀ (n : Nat) (s s' : LoopState α),
      stateAfter m isCallOption callPrice stockPri strikePri rf timeToExp n = some s →
      stateAfter m isCallOption callPrice stockPri strikePri rf timeToExp (n + 1) = some s' →
      ¬ loopCond s' → n + 1 < 1000 →
      calcImpliedVolatility m isCallOption callPrice stockPri strikePri rf timeToExp
          = .ok s'.closestVol
        ∧ 0 < s.closestVol
        ∧ (1 - APPROX_TOLERANCE) * s.closestVol ≤ s'.closestVol
        ∧ 0 < s'.closestVol := by
    intro n s s' h h' hexit hn
    obtain ⟨hres, hpos, hclose, _⟩ := convergence_exit m isCallOption callPrice stockPri
      strikePri rf timeToExp n s s' h h' hexit hn
    have hlow : (1 - APPROX_TOLERANCE) * s.closestVol ≤ s'.closestVol := by
      have := (abs_le.mp hclose).1
      linarith
    have htol : (0 : α) < 1 - APPROX_TOLERANCE := sub_pos.mpr APPROX_TOLERANCE_lt_one
    exact ⟨hres, hpos, hlow, lt_of_lt_of_le (mul_pos htol hpos) hlow⟩
  refine ⟨part1, ?_⟩
  intro v hv hle
  obtain ⟨k, sk, _, hk, hs, hc, hl⟩ := halts_from m isCallOption callPrice stockPri strikePri rf
    timeToExp MAX_ITERATIONS 0 initState (by omega) rfl initState_loopCond
  rcases hl with ⟨what, _, hr⟩ | ⟨hb, _⟩ | ⟨s', hb, hc', hr⟩
  · rw [hr] at hv; cases hv
  · obtain ⟨_, d1, hd1, hvega⟩ := loopBody_ret_inv m _ _ _ _ _ _ sk _ hb
    exact Or.inl ⟨k, sk, d1, hs, hc, hd1, hvega⟩
  · have hs' := stateAfter_succ m _ _ _ _ _ _ k sk s' hs hc hb
    rw [hr] at hv
    simp only [Except.ok.injEq] at hv
    by_cases hlt : k + 1 < 1000
    · have := (part1 k sk s' hs hs' hc' hlt).2.2.2
      rw [hv] at this
      exact absurd this (not_lt.mpr hle)
    · have hk' : k < 1000 := hk
      have : k + 1 = 1000 := by omega
      rw [this] at hs'
      exact Or.inr ⟨s', hs'⟩

end Exits

section RealExits

theorem convergence_exit_positive_witness :
    (∃ (n : Nat) (s : LoopState ℚ) (d1 : ℚ),
        stateAfter ratCMath true 5 0 1 0 1 n = some s
          ∧ loopCond s
          ∧ calcD1 ratCMath s.closestVol 0 1 0 1 = .ok d1
          ∧ calcVega ratCMath 0 d1 1 = 0)
      ∨ (∃ s' : LoopState ℚ, stateAfter ratCMath true 5 0 1 0 1 1000 = some s') :=
  (convergence_exit_positive ratCMath true 5 0 1 0 1).2 (-1)
    (zero_vega_at ratCMath true 5 0 1 0 1 0 initState _ rfl initState_loopCond
      (calcD1_ok ratCMath 1 0 1 0 1 one_pos one_pos one_pos)
      (by unfold calcVega; rw [zero_mul, zero_mul])).2
    (by norm_num)

end RealExits

section Degenerate

/-- C20: over the reals the degenerate branch is governed by the spot alone. For `T > 0`,
`calcVega S d1 T = 0` exactly when `S = 0`; hence for `K > 0`, `T > 0` the solver takes the
`return -1` branch at some iteration exactly when `S = 0`, it then does so at the first
iteration, and with `S ≠ 0` no division of an iteration the solver reaches has a zero
divisor. -/
theorem degenerate_iff_spot_zero :
    (∀ stockPri d1 timeToExp : ℝ, 0 < timeToExp →
        (calcVega realCMath stockPri d1 timeToExp = 0 ↔ stockPri = 0))
      ∧ (∀ (isCallOption : Bool) (callPrice stockPri strikePri rf timeToExp : ℝ),
          0 < strikePri → 0 < timeToExp →
          ((∃ (n : Nat) (s : LoopState ℝ),
              stateAfter realCMath isCallOption callPrice stockPri strikePri rf timeToExp n
                  = some s
                ∧ loopCond s
                ∧ loopBody realCMath isCallOption callPrice stockPri strikePri rf timeToExp s
                  = .ok (.ret (-1)))
            ↔ stockPri = 0)
          ∧ (stockPri = 0 →
              loopBody realCMath isCallOption callPrice stockPri strikePri rf timeToExp
                  initState = .ok (.ret (-1))
                ∧ calcImpliedVolatility realCMath isCallOption callPrice stockPri strikePri rf
                  timeToExp = .ok (-1))
          ∧ (stockPri ≠ 0 →
              ∀ (n : Nat) (s : LoopState ℝ) (d1 : ℝ),
                stateAfter realCMath isCallOption callPrice stockPri strikePri rf timeToExp n
                  = some s →
                calcD1 realCMath s.closestVol stockPri strikePri rf timeToExp = .ok d1 →
                calcVega realCMath stockPri d1 timeToExp ≠ 0 ∧ s.closestVol ≠ 0
                  ∧ s.closestVol * Real.sqrt timeToExp ≠ 0 ∧ strikePri ≠ 0)) := by
  refine ⟨fun S d1 T ht => calcVega_eq_zero_iff realCMath realCMath_facts.1 S d1 T ht, ?_⟩
  intro isCallOption callPrice stockPri strikePri rf timeToExp hk ht
  have hfirst : stockPri = 0 →
      loopBody realCMath isCallOption callPrice stockPri strikePri rf timeToExp
          initState = .ok (.ret (-1))
        ∧ calcImpliedVolatility realCMath isCallOption callPrice stockPri strikePri rf
          timeToExp = .ok (-1) := by
    intro hS
    exact zero_vega_at realCMath isCallOption callPrice stockPri strikePri rf timeToExp 0
      initState _ rfl initState_loopCond
      (calcD1_ok realCMath 1 stockPri strikePri rf timeToExp one_pos ht hk)
      ((calcVega_eq_zero_iff realCMath realCMath_facts.1 stockPri _ timeToExp ht).mpr hS)
  refine ⟨⟨?_, fun hS => ⟨0, initState, rfl, initState_loopCond, (hfirst hS).1⟩⟩, hfirst, ?_⟩
  · rintro ⟨n, s, _, _, hb⟩
    obtain ⟨_, d1, _, hv⟩ := loopBody_ret_inv realCMath _ _ _ _ _ _ s _ hb
    exact (calcVega_eq_zero_iff realCMath realCMath_facts.1 stockPri d1 timeToExp ht).mp hv
  · intro hS n s d1 _ hd1
    obtain ⟨hv, _, _⟩ := calcD1_ok_pos realCMath _ _ _ _ _ _ hd1
    exact ⟨fun h => hS ((calcVega_eq_zero_iff realCMath realCMath_facts.1 stockPri d1 timeToExp ht).mp h), hv.ne',
      (mul_pos hv (Real.sqrt_pos.mpr ht)).ne', hk.ne'⟩

theorem degenerate_iff_spot_zero_witness :
    loopBody realCMath true 5 0 1 0 1 initState = .ok (.ret (-1))
      ∧ calcImpliedVolatility realCMath true 5 0 1 0 1 = .ok (-1) :=
  (degenerate_iff_spot_zero.2 true 5 0 1 0 1 (by norm_num) (by norm_num)).2.1 rfl

end Degenerate

/-! ## Call and put solves linked by parity -/

section Parity

variable {α : Type} [LinearOrderedField α]

end Parity

section RealParity

end RealParity

/-! ## The solver against the reference sequence of the specification -/

section Reference

variable {α : Type} [LinearOrderedField α]

theorem calcD1_eq_d1Value (m : CMath α) (vol stockPri strikePri rf timeToExp d1 : α)
    (h : calcD1 m vol stockPri strikePri rf timeToExp = .ok d1) :
    d1 = d1Value m vol stockPri strikePri rf timeToExp := by
  obtain ⟨hv, ht, hk⟩ := calcD1_ok_pos m _ _ _ _ _ _ h
  rw [calcD1_ok m vol stockPri strikePri rf timeToExp hv ht hk] at h
  simp only [Except.ok.injEq] at h
  rw [← h]; rfl

theorem referenceSeq_succ (m : CMath α) (isCallOption : Bool)
    (marketPrice stockPri strikePri rf timeToExp : α) (j : Nat) :
    referenceSeq m isCallOption marketPrice stockPri strikePri rf timeToExp (j + 1)
      = referenceSeq m isCallOption marketPrice stockPri strikePri rf timeToExp j
        - (blackScholesFunction m isCallOption
              (referenceSeq m isCallOption marketPrice stockPri strikePri rf timeToExp j)
              stockPri strikePri rf timeToExp
              (d1Value m
                (referenceSeq m isCallOption marketPrice stockPri strikePri rf timeToExp j)
                stockPri strikePri rf timeToExp)
              (d1Value m
                  (referenceSeq m isCallOption marketPrice stockPri strikePri rf timeToExp j)
                  stockPri strikePri rf timeToExp
                - referenceSeq m isCallOption marketPrice stockPri strikePri rf timeToExp j
                  * m.sqrt timeToExp)
            - marketPrice)
          / calcVega m stockPri
              (d1Value m
                (referenceSeq m isCallOption marketPrice stockPri strikePri rf timeToExp j)
                stockPri strikePri rf timeToExp)
              timeToExp := by
  cases isCallOption <;> rfl

/-- While the reference sequence has not met the stopping test and every iteration so far
was valid, the loop state after `j` iterations holds the `j`-th element of the sequence, the
counter `j`, and the last relative change. -/
theorem stateAfter_reference (m : CMath α) (isCallOption : Bool)
    (marketPrice stockPri strikePri rf timeToExp : α) (k : Nat) (hk2 : k ≤ 1000)
    (hvalid : ∀ j, j < k → ∃ d1,
      calcD1 m (referenceSeq m isCallOption marketPrice stockPri strikePri rf timeToExp j)
          stockPri strikePri rf timeToExp = .ok d1
        ∧ calcVega m stockPri d1 timeToExp ≠ 0)
    (hleast : ∀ j, 1 ≤ j → j < k →
      ¬ referenceStop m isCallOption marketPrice stockPri strikePri rf timeToExp j) :
    ∀ j, j ≤ k → ∃ sj : LoopState α,
      stateAfter m isCallOption marketPrice stockPri strikePri rf timeToExp j = some sj
        ∧ sj.closestVol
            = referenceSeq m isCallOption marketPrice stockPri strikePri rf timeToExp j
        ∧ sj.iterCount = j
        ∧ (1 ≤ j → sj.currDiff =
            |referenceSeq m isCallOption marketPrice stockPri strikePri rf timeToExp j
                - referenceSeq m isCallOption marketPrice stockPri strikePri rf timeToExp (j - 1)|
              / referenceSeq m isCallOption marketPrice stockPri strikePri rf timeToExp (j - 1))
        ∧ (j = 0 → sj.currDiff = 1) := by
  intro j
  induction j with
  | zero =>
    intro _
    exact ⟨initState, rfl, rfl, rfl, fun h => absurd h (by omega), fun _ => rfl⟩
  | succ j ih =>
    intro hj
    obtain ⟨sj, hs, hvol, hcount, hdiff1, hdiff0⟩ := ih (by omega)
    obtain ⟨d1, hd1, hvega⟩ := hvalid j (by omega)
    rw [← hvol] at hd1
    have hd1v := calcD1_eq_d1Value m _ _ _ _ _ _ hd1
    obtain ⟨hpos, _, _⟩ := calcD1_ok_pos m _ _ _ _ _ _ hd1
    have hc : loopCond sj := by
      refine ⟨?_, by rw [hcount]; unfold MAX_ITERATIONS; omega⟩
      rcases Nat.eq_zero_or_pos j with h0 | h1
      · rw [hdiff0 h0]; exact one_gt_APPROX_TOLERANCE
      · rw [hdiff1 h1]
        have := hleast j h1 (by omega)
        unfold referenceStop at this
        exact lt_of_not_le this
    have hb := loopBody_of_d1_ok m isCallOption marketPrice stockPri strikePri rf timeToExp
      sj d1 hd1
    rw [if_neg hvega] at hb
    have hs' := stateAfter_succ m _ _ _ _ _ _ j sj _ hs hc hb
    have hnext : sj.closestVol -
          (blackScholesFunction m isCallOption sj.closestVol stockPri strikePri rf timeToExp
              d1 (d1 - sj.closestVol * m.sqrt timeToExp) - marketPrice)
            / calcVega m stockPri d1 timeToExp
        = referenceSeq m isCallOption marketPrice stockPri strikePri rf timeToExp (j + 1) := by
      rw [referenceSeq_succ, ← hvol, ← hd1v]
    refine ⟨_, hs', hnext, by rw [hcount], fun _ => ?_, fun h => absurd h (by omega)⟩
    simp only [Nat.add_sub_cancel]
    rw [hnext, abs_div, abs_of_pos hpos, hvol]

/-- C15: the solver computes the reference sequence of the specification. Let `k` in
`1..1000` be the least index at which the stopping test `|s k - s (k-1)| / s (k-1) ≤ 1e-4`
holds, or `1000` if there is none; if none of the iterations `1..k` throws or meets a zero
vega, `calcImpliedVolatility` returns `s k`. -/
theorem solver_reference (m : CMath α) (isCallOption : Bool)
    (marketPrice stockPri strikePri rf timeToExp : α) (k : Nat) (hk1 : 1 ≤ k) (hk2 : k ≤ 1000)
    (hvalid : ∀ j, j < k → ∃ d1,
      calcD1 m (referenceSeq m isCallOption marketPrice stockPri strikePri rf timeToExp j)
          stockPri strikePri rf timeToExp = .ok d1
        ∧ calcVega m stockPri d1 timeToExp ≠ 0)
    (hleast : ∀ j, 1 ≤ j → j < k →
      ¬ referenceStop m isCallOption marketPrice stockPri strikePri rf timeToExp j)
    (hstop : referenceStop m isCallOption marketPrice stockPri strikePri rf timeToExp k
      ∨ k = 1000) :
    calcImpliedVolatility m isCallOption marketPrice stockPri strikePri rf timeToExp
      = .ok (referenceSeq m isCallOption marketPrice stockPri strikePri rf timeToExp k) := by
  obtain ⟨sk, hs, hvol, hcount, hdiff1, _⟩ := stateAfter_reference m isCallOption marketPrice
    stockPri strikePri rf timeToExp k hk2 hvalid hleast k (le_refl k)
  have hexit : ¬ loopCond sk := by
    intro hc
    rcases hstop with hst | h1000
    · have h1 := hc.1
      rw [hdiff1 hk1] at h1
      unfold referenceStop at hst
      exact absurd h1 (not_lt.mpr hst)
    · have h2 := hc.2
      rw [hcount, h1000] at h2
      exact absurd h2 (by unfold MAX_ITERATIONS; omega)
  rw [calcImpliedVolatility_eq_whileLoop m _ _ _ _ _ _ k sk hs,
    whileLoop_of_not_cond m _ _ _ _ _ _ sk hexit, hvol]

end Reference

section ReferenceWitness

theorem solver_reference_witness :
    calcImpliedVolatility ratCMath true
        (blackScholesCall ratCMath 1 1 1 0 1 (d1Value ratCMath 1 1 1 0 1)
          (d2Value ratCMath (d1Value ratCMath 1 1 1 0 1) 1 1))
        1 1 0 1
      = .ok (referenceSeq ratCMath true
          (blackScholesCall ratCMath 1 1 1 0 1 (d1Value ratCMath 1 1 1 0 1)
            (d2Value ratCMath (d1Value ratCMath 1 1 1 0 1) 1 1))
          1 1 0 1 1) :=
  solver_reference ratCMath true _ 1 1 0 1 1 (le_refl 1) (by norm_num)
    (fun j hj => by
      have hj0 : j = 0 := by omega
      subst hj0
      refine ⟨_, calcD1_ok ratCMath 1 1 1 0 1 one_pos one_pos one_pos, ?_⟩
      show (1 : ℚ) * (0.5 * 1) * 1 ≠ 0
      norm_num)
    (fun j h1 h2 => absurd h2 (by omega))
    (Or.inl (by
      unfold referenceStop
      rw [referenceSeq_one_fixed]
      have h0 : referenceSeq ratCMath true
        (blackScholesCall ratCMath 1 1 1 0 1 (d1Value ratCMath 1 1 1 0 1)
          (d2Value ratCMath (d1Value ratCMath 1 1 1 0 1) 1 1))
        1 1 0 1 (1 - 1) = 1 := rfl
      rw [h0, sub_self, abs_zero, zero_div]
      norm_num))

end ReferenceWitness

/-! ## `cdfNorm` is the standard normal distribution function -/

section StandardNormal

open MeasureTheory Set ProbabilityTheory

/-- C12: for every real `x`, `cdfNorm x` lies strictly between 0 and 1 and is the standard
normal distribution function at `x` (the CDF of the Gaussian measure with mean 0 and
variance 1), computed as `0.5 * erfc (-x / √2)`. -/
theorem cdfNorm_standard_normal (x : ℝ) :
    0 < cdfNorm realCMath x ∧ cdfNorm realCMath x < 1
      ∧ cdfNorm realCMath x = cdf (gaussianReal 0 1) x
      ∧ cdfNorm realCMath x = 0.5 * erfc (-x / Real.sqrt 2) := by
  have hb : 0 < Real.sqrt 0.5 := Real.sqrt_pos.mpr (by norm_num)
  have hsq : Real.sqrt 0.5 ^ 2 = 0.5 := Real.sq_sqrt (by norm_num)
  have h5 : (0.5 : ℝ) = 1 / 2 := by norm_num
  have hhalf : Real.sqrt 0.5 = 1 / Real.sqrt 2 := by
    rw [h5, Real.sqrt_div zero_le_one, Real.sqrt_one]
  have hpi : 0 < Real.sqrt Real.pi := Real.sqrt_pos.mpr Real.pi_pos
  have h2 : Real.sqrt (2 * Real.pi) = Real.sqrt 2 * Real.sqrt Real.pi :=
    Real.sqrt_mul (by norm_num) _
  have h3 : 0 < Real.sqrt 2 := Real.sqrt_pos.mpr two_pos
  -- the tail of `exp (-t²/2)` is `√2` times the Gaussian tail at `x * √0.5`
  have htail : ∫ t in Ioi x, Real.exp (-t ^ 2 / 2)
      = (Real.sqrt 0.5)⁻¹ * gaussTail (Real.sqrt 0.5 * x) := by
    have h := integral_comp_mul_left_Ioi (fun u : ℝ => Real.exp (-u ^ 2)) x hb
    rw [smul_eq_mul] at h
    show ∫ t in Ioi x, Real.exp (-t ^ 2 / 2)
      = (Real.sqrt 0.5)⁻¹ * ∫ t in Ioi (Real.sqrt 0.5 * x), Real.exp (-t ^ 2)
    rw [← h]
    congr 1
    ext t
    show Real.exp (-t ^ 2 / 2) = Real.exp (-(Real.sqrt 0.5 * t) ^ 2)
    rw [mul_pow, hsq]
    congr 1
    rw [h5]
    ring
  have hdens : ∀ t : ℝ, gaussianPDFReal 0 1 t
      = (Real.sqrt (2 * Real.pi))⁻¹ * Real.exp (-t ^ 2 / 2) := by
    intro t
    simp [gaussianPDFReal]
  have hpdf : ∫ t in Ioi x, gaussianPDFReal 0 1 t = erfc (Real.sqrt 0.5 * x) / 2 := by
    simp only [hdens]
    rw [integral_mul_left, htail]
    show (Real.sqrt (2 * Real.pi))⁻¹ * ((Real.sqrt 0.5)⁻¹ * gaussTail (Real.sqrt 0.5 * x))
      = 2 / Real.sqrt Real.pi * gaussTail (Real.sqrt 0.5 * x) / 2
    rw [hhalf, h2]
    field_simp
    ring
  have hcdf : cdf (gaussianReal 0 1) x = 1 - erfc (Real.sqrt 0.5 * x) / 2 := by
    rw [cdf_eq_toReal, gaussianReal_apply_eq_integral 0 one_ne_zero,
      ENNReal.toReal_ofReal (setIntegral_nonneg measurableSet_Iic
        (fun t _ => gaussianPDFReal_nonneg 0 1 t)),
      ← hpdf]
    have h := intervalIntegral.integral_Iic_add_Ioi (b := x)
      (integrable_gaussianPDFReal 0 1).integrableOn (integrable_gaussianPDFReal 0 1).integrableOn
    rw [integral_gaussianPDFReal_eq_one 0 one_ne_zero] at h
    linarith
  have hdef : cdfNorm realCMath x = 0.5 * erfc (-x * Real.sqrt 0.5) := rfl
  refine ⟨cdfNorm_pos realCMath realCMath_facts.1 x, cdfNorm_lt_one realCMath realCMath_facts.1 x,
    ?_, ?_⟩
  · rw [hcdf, hdef]
    have h : -x * Real.sqrt 0.5 = -(Real.sqrt 0.5 * x) := by ring
    have hneg : erfc (-(Real.sqrt 0.5 * x)) = 2 - erfc (Real.sqrt 0.5 * x) :=
      realCMath_facts.1.erfc_neg _
    rw [h, hneg, h5]
    ring
  · rw [hdef, hhalf]
    congr 2
    ring

end StandardNormal

/-! ## `calcVega` against the derivative of the price -/

section Derivative

open MeasureTheory Set ProbabilityTheory

/-- C16, evaluated at `S = K = 1`, `rf = 0`, `T = 1`, `vol = 1`: `calcD1` returns `d1 = 1/2`;
the call price and the put price as functions of the volatility both have derivative
`S * φ(d1) * √T` there, with `φ` the standard normal density, which is less than `1/2`;
`calcVega` is `S * Φ(d1) * √T ≥ 1/2`. So `calcVega` is not the derivative of either price. -/
theorem calcVega_not_derivative :
    calcD1 realCMath 1 1 1 0 1 = .ok (d1Value realCMath 1 1 1 0 1)
      ∧ (∀ isCallOption : Bool,
          HasDerivAt
            (fun u : ℝ =>
              blackScholesFunction realCMath isCallOption u 1 1 0 1 (d1Value realCMath u 1 1 0 1)
                (d2Value realCMath (d1Value realCMath u 1 1 0 1) u 1))
            (1 * gaussianPDFReal 0 1 (d1Value realCMath 1 1 1 0 1) * Real.sqrt 1) 1)
      ∧ 1 * gaussianPDFReal 0 1 (d1Value realCMath 1 1 1 0 1) * Real.sqrt 1 < 1 / 2
      ∧ 1 / 2 ≤ calcVega realCMath 1 (d1Value realCMath 1 1 1 0 1) 1
      ∧ (∀ isCallOption : Bool,
          ¬ HasDerivAt
            (fun u : ℝ =>
              blackScholesFunction realCMath isCallOption u 1 1 0 1 (d1Value realCMath u 1 1 0 1)
                (d2Value realCMath (d1Value realCMath u 1 1 0 1) u 1))
            (calcVega realCMath 1 (d1Value realCMath 1 1 1 0 1) 1) 1) := by
  have hsub := realCMath_facts.2
  have hpi : 0 < Real.sqrt Real.pi := Real.sqrt_pos.mpr Real.pi_pos
  have h5 : (0.5 : ℝ) = 1 / 2 := by norm_num
  have hsq : Real.sqrt 0.5 ^ 2 = 0.5 := Real.sq_sqrt (by norm_num)
  have hhalf : Real.sqrt 0.5 = 1 / Real.sqrt 2 := by
    rw [h5, Real.sqrt_div zero_le_one, Real.sqrt_one]
  have h2 : Real.sqrt (2 * Real.pi) = Real.sqrt 2 * Real.sqrt Real.pi :=
    Real.sqrt_mul (by norm_num) _
  have h3 : 0 < Real.sqrt 2 := Real.sqrt_pos.mpr two_pos
  have hd1 : d1Value realCMath 1 1 1 0 1 = 1 / 2 := d1Value_unit realCMath realCMath_facts.1 1
  -- the derivative of the Gaussian tail and of `erfc` (fundamental theorem of calculus)
  have htail : ∀ y : ℝ, HasDerivAt gaussTail (-Real.exp (-y ^ 2)) y := by
    intro y
    have hfun : gaussTail = fun u => gaussTail 0 - ∫ t in (0 : ℝ)..u, Real.exp (-t ^ 2) := by
      funext u
      have := hsub 0 u
      linarith
    have hcont : Continuous (fun t : ℝ => Real.exp (-t ^ 2)) := by fun_prop
    rw [hfun]
    exact ((hcont.integral_hasStrictDerivAt 0 y).hasDerivAt).const_sub _
  have herfc : ∀ y : ℝ, HasDerivAt erfc (2 / Real.sqrt Real.pi * -Real.exp (-y ^ 2)) y := by
    intro y
    have hfun : erfc = fun u => 2 / Real.sqrt Real.pi * gaussTail u := rfl
    rw [hfun]
    exact (htail y).const_mul _
  have hdens : gaussianPDFReal 0 1 (1 / 2)
      = (Real.sqrt (2 * Real.pi))⁻¹ * Real.exp (-(1 / 2 : ℝ) ^ 2 / 2) := by
    simp [gaussianPDFReal]
  -- the price as a function of the volatility and its derivative at `1`
  have hprice : ∀ isCallOption : Bool,
      HasDerivAt
        (fun u : ℝ =>
          blackScholesFunction realCMath isCallOption u 1 1 0 1 (d1Value realCMath u 1 1 0 1)
            (d2Value realCMath (d1Value realCMath u 1 1 0 1) u 1))
        (gaussianPDFReal 0 1 (1 / 2)) 1 := by
    intro isCallOption
    have hfun : (fun u : ℝ =>
          blackScholesFunction realCMath isCallOption u 1 1 0 1 (d1Value realCMath u 1 1 0 1)
            (d2Value realCMath (d1Value realCMath u 1 1 0 1) u 1))
        = fun u => erfc (-(u / 2) * Real.sqrt 0.5) - 1 := by
      funext u
      exact unit_price_eq realCMath realCMath_facts.1 isCallOption u
    rw [hfun]
    have hinner : HasDerivAt (fun u : ℝ => -(u / 2) * Real.sqrt 0.5)
        (-(1 / 2) * Real.sqrt 0.5) 1 :=
      (((hasDerivAt_id (1 : ℝ)).div_const 2).neg).mul_const _
    have hcomp := ((herfc (-((1 : ℝ) / 2) * Real.sqrt 0.5)).comp 1 hinner).sub_const 1
    have hval : 2 / Real.sqrt Real.pi * -Real.exp (-(-((1 : ℝ) / 2) * Real.sqrt 0.5) ^ 2)
          * (-(1 / 2) * Real.sqrt 0.5)
        = gaussianPDFReal 0 1 (1 / 2) := by
      have hsq' : (-((1 : ℝ) / 2) * Real.sqrt 0.5) ^ 2 = (1 / 2) ^ 2 / 2 := by
        rw [mul_pow, hsq, h5]
        ring
      rw [hsq', hdens, h2, hhalf, neg_div]
      field_simp
      ring
    rw [← hval]
    exact hcomp
  have hlt : gaussianPDFReal 0 1 (1 / 2) < 1 / 2 := by
    have hexp : Real.exp (-(1 / 2 : ℝ) ^ 2 / 2) ≤ 1 := by
      rw [Real.exp_le_one_iff]
      norm_num
    have hsqrt : 2 < Real.sqrt (2 * Real.pi) := by
      rw [Real.lt_sqrt (by norm_num)]
      have := Real.pi_gt_three
      linarith
    have hinv : (Real.sqrt (2 * Real.pi))⁻¹ < 1 / 2 := by
      rw [inv_eq_one_div]
      exact one_div_lt_one_div_of_lt two_pos hsqrt
    have hpos : 0 < (Real.sqrt (2 * Real.pi))⁻¹ := inv_pos.mpr (by linarith)
    rw [hdens]
    calc (Real.sqrt (2 * Real.pi))⁻¹ * Real.exp (-(1 / 2 : ℝ) ^ 2 / 2)
        ≤ (Real.sqrt (2 * Real.pi))⁻¹ * 1 := mul_le_mul_of_nonneg_left hexp hpos.le
      _ < 1 / 2 := by rw [mul_one]; exact hinv
  have hge : 1 / 2 ≤ calcVega realCMath 1 (d1Value realCMath 1 1 1 0 1) 1 := by
    have hv : calcVega realCMath 1 (d1Value realCMath 1 1 1 0 1) 1
        = cdfNorm realCMath (d1Value realCMath 1 1 1 0 1) := by
      show 1 * cdfNorm realCMath (d1Value realCMath 1 1 1 0 1) * Real.sqrt 1 = _
      rw [Real.sqrt_one, one_mul, mul_one]
    rw [hv, hd1]
    exact cdfNorm_half_le realCMath realCMath_facts.1 _ (by norm_num)
  have hd : ∀ isCallOption : Bool,
      HasDerivAt
        (fun u : ℝ =>
          blackScholesFunction realCMath isCallOption u 1 1 0 1 (d1Value realCMath u 1 1 0 1)
            (d2Value realCMath (d1Value realCMath u 1 1 0 1) u 1))
        (1 * gaussianPDFReal 0 1 (d1Value realCMath 1 1 1 0 1) * Real.sqrt 1) 1 := by
    intro isCallOption
    rw [hd1, Real.sqrt_one, one_mul, mul_one]
    exact hprice isCallOption
  have hlt' : 1 * gaussianPDFReal 0 1 (d1Value realCMath 1 1 1 0 1) * Real.sqrt 1 < 1 / 2 := by
    rw [hd1, Real.sqrt_one, one_mul, mul_one]
    exact hlt
  refine ⟨calcD1_ok realCMath 1 1 1 0 1 one_pos one_pos one_pos, hd, hlt', hge, ?_⟩
  intro isCallOption hbad
  have := (hd isCallOption).unique hbad
  linarith

end Derivative

end OptionsCalculator
